import Mathlib

/-!
Verification development for the variant reset/recreate engine of the
shopify-mysql-sync repository.

The embedding models `reset_variants.py` (the batch driver and per-product
orchestration in `main`, the backup tables of `ensure_temp_tables`, the
inventory helpers) and the retry transport of `src/shopify_client.py`
(`ShopifyClient._request` and `ShopifyClient._calculate_wait_time`).

The remote platform and the MySQL session are abstracted into an `Env`
record of response functions; one product run is a pure function producing
the final backup-store state and the ordered trace of observable events
(store writes, the commit, remote deletes/creates, restore and cleanup
calls, log-worthy skips and warnings, and an uncaught-exception marker).
-/

/-! ## String helpers (Python `in` and `.lower()` on ASCII titles) -/

/-- Tests whether the first character list is an initial segment of the second. -/
def leadsWith : List Char → List Char → Bool
  | [], _ => true
  | _ :: _, [] => false
  | a :: as, b :: bs => a == b && leadsWith as bs

/-- Tests whether `sub` occurs as a contiguous sublist of the second argument. -/
def listHasSub (sub : List Char) : List Char → Bool
  | [] => leadsWith sub []
  | c :: rest => leadsWith sub (c :: rest) || listHasSub sub rest

/-- Python `sub in s` on strings: substring containment. -/
def containsSub (s sub : String) : Bool :=
  listHasSub sub.data s.data

/-- Python `s.lower()` (per-character lowering). -/
def strLower (s : String) : String :=
  ⟨s.data.map Char.toLower⟩

/-- The exclusion filter of reset_variants.py lines 229 and 293:
`"perso" in v.get("title", "").lower()`. -/
def hasPerso (title : String) : Bool :=
  containsSub (strLower title) "perso"

/-- Python truthiness of an optional integer field: `None` and `0` are falsy. -/
def optTruthy (x : Option Nat) : Option Nat :=
  match x with
  | some n => if n = 0 then none else some n
  | none => none

/-! ## Data model -/

/-- The fields of a fetched variant JSON object that the reset engine reads.
`option1` is optional because the code accesses `v["option1"]` (a KeyError
when absent), unlike the `.get` accesses; `inventory_management` models the
truthiness of the JSON field. -/
structure Variant where
  id : Nat
  title : String
  option1 : Option String
  inventory_item_id : Option Nat
  inventory_management : Bool
  deriving Repr, DecidableEq

/-- A row of the `variant_backup` table: columns
(id, product_id, inventory_item_id, variant_json, position),
primary key (product_id, id). The serialized JSON round-trips, so it is
modelled by the `Variant` value itself. -/
structure VRow where
  id : Nat
  product_id : Nat
  inventory_item_id : Option Nat
  variant : Variant
  position : Nat
  deriving Repr, DecidableEq

/-- A row of the `inventory_backup` table: columns
(variant_id, inventory_item_id, location_id, available),
primary key (variant_id, location_id). -/
structure IRow where
  variant_id : Nat
  inventory_item_id : Nat
  location_id : Nat
  available : Int
  deriving Repr, DecidableEq

/-- The backup store: the two temporary tables, rows in insertion order. -/
structure DB where
  variant_backup : List VRow
  inventory_backup : List IRow
  deriving Repr, DecidableEq

/-- The row inserted for variant `v` at enumeration index `idx`
(reset_variants.py lines 174-177). -/
def mkVRow (pid : Nat) (idx : Nat) (v : Variant) : VRow :=
  ⟨v.id, pid, v.inventory_item_id, v, idx⟩

/-- INSERT INTO variant_backup, honoring the (product_id, id) primary key:
a duplicate key makes the statement raise (modelled as `none`). -/
def insertVariantRow (db : DB) (r : VRow) : Option DB :=
  if db.variant_backup.any (fun q => q.product_id == r.product_id && q.id == r.id) then
    none
  else
    some { db with variant_backup := db.variant_backup ++ [r] }

/-- INSERT INTO inventory_backup, honoring the (variant_id, location_id)
primary key. -/
def insertInventoryRow (db : DB) (r : IRow) : Option DB :=
  if db.inventory_backup.any (fun q => q.variant_id == r.variant_id && q.location_id == r.location_id) then
    none
  else
    some { db with inventory_backup := db.inventory_backup ++ [r] }

/-- reset_variants.py lines 107-131: create the two temporary tables if absent
and DELETE FROM both, i.e. the store starts empty. Called once per process,
before the product loop. -/
def ensure_temp_tables (_db : DB) : DB :=
  ⟨[], []⟩

/-! ## Environment: responses of the remote platform -/

/-- Abstraction of the remote platform and transport for one run.
`none` results model a raised exception at that call:
for `fetchVariants` the exception of STEP 1 (caught, product skipped);
for `invLevels` the exception caught inside `get_inventory_levels`;
for `createResult` the exception of the create request (caught, logged);
an inner `none` in `createResult` models a create response without an
`inventory_item_id` field. `deleteOk` tells whether a delete request
succeeded (a failure is caught and logged). -/
structure Env where
  fetchVariants : Nat → Option (List Variant)
  invLevels : Nat → Option (List (Nat × Int))
  deleteOk : Nat → Bool
  createResult : Nat → Option (Option Nat)

/-! ## Events: the observable trace of one run -/

/-- Observable steps of a run, in program order. `deleteIssued` and
`createIssued` are remote mutations; `insertedVariantRow`,
`insertedInventoryRow` and `commit` are backup-store operations;
`skipPerso`, `warnUnrestored`, `invLevelsError` are log-worthy decisions;
`fatal` marks an exception that escaped the per-product code and ended the
batch (caught only by the `__main__` handler, which exits). -/
inductive Event where
  | fetchError (productId : Nat)
  | fetched (productId n : Nat)
  | skipNoVariants (productId : Nat)
  | insertedVariantRow (r : VRow)
  | insertedInventoryRow (r : IRow)
  | invLevelsError (itemId : Nat)
  | commit
  | deleteIssued (variantId : Nat) (ok : Bool)
  | skipPerso (title : String)
  | createIssued (oldVariantId : Nat)
  | created (oldVariantId newItemId : Nat)
  | createdNoItem (oldVariantId : Nat)
  | createError (oldVariantId : Nat)
  | restoreSet (newItemId locationId : Nat) (available : Int)
  | warnUnrestored (variantId : Nat)
  | cleanupFetch (newItemId : Nat)
  | removeIssued (newItemId locationId : Nat)
  | productDone (productId : Nat)
  | fatal (msg : String)
  deriving Repr, DecidableEq

/-! ## The orchestration of reset_variants.main, one product -/

/-- reset_variants.py lines 47-60: `get_inventory_levels` catches every
exception, logs a warning and returns the empty list. The second component
is the emitted log event. -/
def get_inventory_levels (env : Env) (itemId : Nat) : List (Nat × Int) × List Event :=
  match env.invLevels itemId with
  | some levels => (levels, [])
  | none => ([], [Event.invLevelsError itemId])

/-- The inner loop of STEP 2 (lines 184-190): insert one inventory_backup row
per level and collect the location ids. A duplicate-key insert raises
(`none` in the third component); the store keeps the rows inserted so far. -/
def insertLevels (variantId itemId : Nat) : List (Nat × Int) → DB → DB × List Event × Option (List Nat)
  | [], db => (db, [], some [])
  | (loc, avail) :: rest, db =>
    match insertInventoryRow db ⟨variantId, itemId, loc, avail⟩ with
    | none => (db, [], none)
    | some db1 =>
      let restRes := insertLevels variantId itemId rest db1
      (restRes.1,
       Event.insertedInventoryRow ⟨variantId, itemId, loc, avail⟩ :: restRes.2.1,
       restRes.2.2.map (fun locs => loc :: locs))

/-- STEP 2 (lines 172-193): for each `(idx, v)` of `enumerate(variants)`,
insert the variant_backup row; when `v.get("inventory_management")` and
`v.get("inventory_item_id")` are truthy, fetch the inventory levels
(errors collapse to `[]`), back them up, and record the original locations
of that variant. The third component is `none` when an insert raised. -/
def backupLoop (env : Env) (pid : Nat) :
    List (Nat × Variant) → DB → DB × List Event × Option (List (Nat × List Nat))
  | [], db => (db, [], some [])
  | (idx, v) :: rest, db =>
    match insertVariantRow db (mkVRow pid idx v) with
    | none => (db, [], none)
    | some db1 =>
      match v.inventory_management, optTruthy v.inventory_item_id with
      | true, some itemId =>
        let fetched := get_inventory_levels env itemId
        let step := insertLevels v.id itemId fetched.1 db1
        match step.2.2 with
        | none =>
          (step.1, Event.insertedVariantRow (mkVRow pid idx v) :: fetched.2 ++ step.2.1, none)
        | some locs =>
          let restRes := backupLoop env pid rest step.1
          (restRes.1,
           Event.insertedVariantRow (mkVRow pid idx v) :: fetched.2 ++ step.2.1 ++ restRes.2.1,
           restRes.2.2.map (fun l => (v.id, locs) :: l))
      | _, _ =>
        let restRes := backupLoop env pid rest db1
        (restRes.1, Event.insertedVariantRow (mkVRow pid idx v) :: restRes.2.1, restRes.2.2)

/-- Stable insertion of a row into a position-sorted list. -/
def insertByPosition (r : VRow) : List VRow → List VRow
  | [] => [r]
  | q :: rest =>
    if r.position < q.position then r :: q :: rest else q :: insertByPosition r rest

/-- Stable sort by the `position` column, modelling `ORDER BY position`. -/
def sortByPosition : List VRow → List VRow
  | [] => []
  | r :: rest => insertByPosition r (sortByPosition rest)

/-- STEP 4 query (lines 213-219): SELECT the backed-up rows of this product
ordered by position. -/
def loadRows (db : DB) (pid : Nat) : List VRow :=
  sortByPosition (db.variant_backup.filter (fun r => r.product_id == pid))

/-- Recreation of one backed-up variant (the body of the loop at lines
225-270, also reused verbatim for the survivor at lines 290-331): parse the
backup JSON, skip on the "perso" filter, build the creation payload — where
`v["option1"]` raises a KeyError when the key is absent, before the guarded
request — then issue the create; on success with a truthy
`inventory_item_id` in the response, record the identity-map entry.
`none` in the second component is the uncaught KeyError. -/
def recreateOne (env : Env) (r : VRow) : List Event × Option (List (Nat × Nat)) :=
  let v := r.variant
  if hasPerso v.title then
    ([Event.skipPerso v.title], some [])
  else
    match v.option1 with
    | none => ([], none)
    | some _ =>
      match env.createResult r.id with
      | none => ([Event.createIssued r.id, Event.createError r.id], some [])
      | some resp =>
        match optTruthy resp with
        | some newItem =>
          ([Event.createIssued r.id, Event.created r.id newItem], some [(r.id, newItem)])
        | none => ([Event.createIssued r.id, Event.createdNoItem r.id], some [])

/-- STEP 4 loop over `rows[1:]`, accumulating identity-map entries in
insertion order. A KeyError (`none`) aborts the loop and escapes. -/
def recreateLoop (env : Env) : List VRow → List Event × Option (List (Nat × Nat))
  | [] => ([], some [])
  | r :: rest =>
    match recreateOne env r with
    | (evs, none) => (evs, none)
    | (evs, some ms) =>
      match recreateLoop env rest with
      | (evs2, none) => (evs ++ evs2, none)
      | (evs2, some ms2) => (evs ++ evs2, some (ms ++ ms2))

/-- The log line of reset_variants.py line 348, `f"  ⚠️ Impossibile
ripristinare inventory per variant {old_variant_id} (variante non ricreata
o skippata)"`: it interpolates only the old variant id. -/
def unrestoredWarning (oldVariantId : Nat) : String :=
  "  ⚠️ Impossibile ripristinare inventory per variant " ++ toString oldVariantId
    ++ " (variante non ricreata o skippata)"

/-- One iteration of STEP 7 (lines 342-348): look the owning variant up in
the identity map; set the level on the new item when present, otherwise log
the warning of `unrestoredWarning`. -/
def restoreStep (mapping : List (Nat × Nat)) (r : IRow) : Event :=
  match mapping.lookup r.variant_id with
  | some newItem => Event.restoreSet newItem r.location_id r.available
  | none => Event.warnUnrestored r.variant_id

/-- STEP 7 loop: every backed-up inventory row is processed, one event each;
a map miss never raises. -/
def restoreLoop (mapping : List (Nat × Nat)) (rows : List IRow) : List Event :=
  rows.map (restoreStep mapping)

/-- STEP 7 query (lines 335-339): inventory rows whose variant id occurs in
this product's variant_backup rows. -/
def loadInventoryRows (db : DB) (pid : Nat) : List IRow :=
  db.inventory_backup.filter (fun r =>
    (db.variant_backup.filter (fun q => q.product_id == pid)).any (fun q => q.id == r.variant_id))

/-- One iteration of STEP 8 (lines 352-365): for an identity-map entry,
take the variant's original location set (empty when it was never recorded),
fetch the current levels of the new item, and remove every current location
not in the original set. -/
def cleanupOne (env : Env) (origLocs : List (Nat × List Nat)) (entry : Nat × Nat) : List Event :=
  let original := (origLocs.lookup entry.1).getD []
  let fetched := get_inventory_levels env entry.2
  Event.cleanupFetch entry.2 :: fetched.2
    ++ (fetched.1.filter (fun l => !(original.contains l.1))).map
        (fun l => Event.removeIssued entry.2 l.1)

/-- STEP 8 loop over `variant_mapping.items()` in insertion order. -/
def cleanupLoop (env : Env) (origLocs : List (Nat × List Nat)) : List (Nat × Nat) → List Event
  | [] => []
  | e :: rest => cleanupOne env origLocs e ++ cleanupLoop env origLocs rest

/-- One product's orchestration: the body of the `for product_id in
product_ids` loop of `main` (lines 145-367). The third component is `some
msg` when an exception escaped the body (it then terminates the batch):
a duplicate-key insert in STEP 2, a KeyError building a creation payload in
STEP 4 or 6, or `rows[0]` on an empty result in STEP 6. A fetch failure in
STEP 1 is caught and only skips the product. -/
def processProduct (env : Env) (db : DB) (pid : Nat) : DB × List Event × Option String :=
  match env.fetchVariants pid with
  | none => (db, [Event.fetchError pid], none)
  | some variants =>
    match variants with
    | [] => (db, [Event.fetched pid 0, Event.skipNoVariants pid], none)
    | firstVariant :: restVariants =>
      let bres := backupLoop env pid (List.enumFrom 0 variants) db
      match bres.2.2 with
      | none =>
        (bres.1, Event.fetched pid variants.length :: bres.2.1,
         some "IntegrityError: duplicate key")
      | some origLocs =>
        let deleteEvs := restVariants.map (fun v => Event.deleteIssued v.id (env.deleteOk v.id))
        let rows := loadRows bres.1 pid
        let rres := recreateLoop env rows.tail
        match rres.2 with
        | none =>
          (bres.1,
           Event.fetched pid variants.length :: bres.2.1 ++ Event.commit :: deleteEvs ++ rres.1,
           some "KeyError: option1")
        | some mappingTail =>
          let delFirst := Event.deleteIssued firstVariant.id (env.deleteOk firstVariant.id)
          match rows.head? with
          | none =>
            (bres.1,
             Event.fetched pid variants.length :: bres.2.1 ++ Event.commit :: deleteEvs
               ++ rres.1 ++ [delFirst],
             some "IndexError: list index out of range")
          | some firstRow =>
            let sres := recreateOne env firstRow
            match sres.2 with
            | none =>
              (bres.1,
               Event.fetched pid variants.length :: bres.2.1 ++ Event.commit :: deleteEvs
                 ++ rres.1 ++ delFirst :: sres.1,
               some "KeyError: option1")
            | some mappingFirst =>
              let mapping := mappingTail ++ mappingFirst
              let invRows := loadInventoryRows bres.1 pid
              (bres.1,
               Event.fetched pid variants.length :: bres.2.1 ++ Event.commit :: deleteEvs
                 ++ rres.1 ++ delFirst :: sres.1
                 ++ restoreLoop mapping invRows
                 ++ cleanupLoop env origLocs mapping
                 ++ [Event.productDone pid],
               none)

/-- The batch driver: iterate the product id list; an escaped exception ends
the batch (the `__main__` handler at lines 373-380 logs it and exits 1),
otherwise continue with the remaining products. -/
def runBatch (env : Env) : List Nat → DB → DB × List Event
  | [], db => (db, [])
  | pid :: rest, db =>
    let pres := processProduct env db pid
    match pres.2.2 with
    | none =>
      let bres := runBatch env rest pres.1
      (bres.1, pres.2.1 ++ bres.2)
    | some msg => (pres.1, pres.2.1 ++ [Event.fatal msg])

/-- `main`: connect, create and clear the temp tables once, then run the
batch. -/
def mainRun (env : Env) (productIds : List Nat) : DB × List Event :=
  runBatch env productIds (ensure_temp_tables ⟨[], []⟩)

/-! ## The retry transport of src/shopify_client.py -/

/-- What one attempt of `ShopifyClient._request` observes: an HTTP response
(status and optional Retry-After header) or a raised ConnectionError. -/
inductive AttemptOutcome where
  | response (status : Nat) (retryAfter : Option String)
  | connectionError
  deriving Repr, DecidableEq

/-- How `_request` ends: a returned response, a propagated
`raise_for_status` error, or the final exception after `max_retries`
attempts. -/
inductive RequestResult where
  | success (status : Nat)
  | httpError (status : Nat)
  | exhausted
  deriving Repr, DecidableEq

/-- shopify_client.py line 21. -/
def RETRYABLE_STATUS_CODES : List Nat := [429, 502, 503, 504]

/-- Integer parse of a header value, modelling `float(retry_after)` on the
integral hints the server sends (a non-numeric value raises ValueError). -/
def digitsToNat (acc : Nat) : List Char → Option Nat
  | [] => some acc
  | c :: rest => if c.isDigit then digitsToNat (acc * 10 + (c.toNat - 48)) rest else none

/-- Parse an unsigned integer string, `none` when empty or non-numeric. -/
def parseNat (s : String) : Option Nat :=
  match s.data with
  | [] => none
  | _ => digitsToNat 0 s.data

/-- `ShopifyClient._calculate_wait_time` (lines 187-206): on 429 use the
Retry-After header defaulted to "2"; when it parses, return it; otherwise
fall through to `min(2 ** attempt, 32)`, which is also the wait for every
other retryable status. Times are in whole seconds. -/
def calculate_wait_time (status : Nat) (retryAfter : Option String) (attempt : Nat) : Nat :=
  if status = 429 then
    match parseNat (retryAfter.getD "2") with
    | some n => n
    | none => min (2 ^ attempt) 32
  else
    min (2 ^ attempt) 32

/-- Predicate: this attempt outcome makes `_request` sleep and retry. -/
def retryAttempt : AttemptOutcome → Bool
  | AttemptOutcome.connectionError => true
  | AttemptOutcome.response status _ => RETRYABLE_STATUS_CODES.contains status

/-- The attempt loop of `ShopifyClient._request` (lines 156-185): a
retryable status sleeps `calculate_wait_time` and continues; any other
status at least 400 propagates from `raise_for_status` without retry; a
ConnectionError sleeps `2 ** attempt` and continues; a status below 400 is
returned. The second component is the sequence of sleeps. -/
def requestLoop (outcomes : Nat → AttemptOutcome) : Nat → Nat → RequestResult × List Nat
  | _, 0 => (RequestResult.exhausted, [])
  | attempt, fuel + 1 =>
    match outcomes attempt with
    | AttemptOutcome.connectionError =>
      let res := requestLoop outcomes (attempt + 1) fuel
      (res.1, 2 ^ attempt :: res.2)
    | AttemptOutcome.response status retryAfter =>
      if RETRYABLE_STATUS_CODES.contains status then
        let res := requestLoop outcomes (attempt + 1) fuel
        (res.1, calculate_wait_time status retryAfter attempt :: res.2)
      else if 400 ≤ status then (RequestResult.httpError status, [])
      else (RequestResult.success status, [])

/-- `ShopifyClient._request` with the default `max_retries = 5`. -/
def request (outcomes : Nat → AttemptOutcome) : RequestResult × List Nat :=
  requestLoop outcomes 0 5

/-! ## Trace analysis helpers -/

/-- The ordered sequence of variant ids whose remote delete was issued. -/
def deleteSeq (evs : List Event) : List Nat :=
  evs.filterMap (fun e => match e with
    | Event.deleteIssued i _ => some i
    | _ => none)

/-- The ordered sequence of old variant ids whose remote create was issued. -/
def createSeq (evs : List Event) : List Nat :=
  evs.filterMap (fun e => match e with
    | Event.createIssued i => some i
    | _ => none)

/-- Change of the remote variant count effected by one event: a successful
delete removes a variant, a successful create (with or without an inventory
item id in the response) adds one. -/
def liveDelta : Event → Int
  | Event.deleteIssued _ true => -1
  | Event.created _ _ => 1
  | Event.createdNoItem _ => 1
  | _ => 0

/-- The running remote variant count after each event, starting from `n`. -/
def liveCounts : Int → List Event → List Int
  | _, [] => []
  | n, e :: rest => (n + liveDelta e) :: liveCounts (n + liveDelta e) rest

/-- The spec invariant of one run: starting from `n0` remote variants, the
product retains at least one variant after every event of the trace. -/
def alwaysLive (n0 : Int) (evs : List Event) : Bool :=
  (liveCounts n0 evs).all (fun n => decide (1 ≤ n))

/-- Classifier: backup-store write events. -/
def isBackupWrite : Event → Bool
  | Event.insertedVariantRow _ => true
  | Event.insertedInventoryRow _ => true
  | _ => false

/-- Classifier: remote variant delete events. -/
def isDeleteEvent : Event → Bool
  | Event.deleteIssued _ _ => true
  | _ => false

/-- Extract the variant_backup row written by an event, if any. -/
def variantRowOf : Event → Option VRow
  | Event.insertedVariantRow r => some r
  | _ => none

/-- Extract the inventory_backup row written by an event, if any. -/
def invRowOf : Event → Option IRow
  | Event.insertedInventoryRow r => some r
  | _ => none

/-! ## Specification-level descriptions of the run pieces -/

/-- The variant_backup rows a successful STEP 2 writes for an enumerated
variant list. -/
def backupRowsSpec (pid : Nat) (l : List (Nat × Variant)) : List VRow :=
  l.map (fun p => mkVRow pid p.1 p.2)

/-- The inventory_backup rows a successful STEP 2 writes. -/
def invRowsSpec (env : Env) : List (Nat × Variant) → List IRow
  | [] => []
  | (_, v) :: rest =>
    (match v.inventory_management, optTruthy v.inventory_item_id with
     | true, some itemId =>
       ((env.invLevels itemId).getD []).map (fun lv => IRow.mk v.id itemId lv.1 lv.2)
     | _, _ => []) ++ invRowsSpec env rest

/-- The `original_locations` map a successful STEP 2 builds. -/
def origLocsSpec (env : Env) : List (Nat × Variant) → List (Nat × List Nat)
  | [] => []
  | (_, v) :: rest =>
    match v.inventory_management, optTruthy v.inventory_item_id with
    | true, some itemId =>
      (v.id, ((env.invLevels itemId).getD []).map Prod.fst) :: origLocsSpec env rest
    | _, _ => origLocsSpec env rest

/-- The events of a successful STEP 2 for one enumerated variant. -/
def backupVariantEvsSpec (env : Env) (pid : Nat) (idx : Nat) (v : Variant) : List Event :=
  Event.insertedVariantRow (mkVRow pid idx v) ::
    match v.inventory_management, optTruthy v.inventory_item_id with
    | true, some itemId =>
      (get_inventory_levels env itemId).2
        ++ ((env.invLevels itemId).getD []).map
            (fun lv => Event.insertedInventoryRow (IRow.mk v.id itemId lv.1 lv.2))
    | _, _ => []

/-- The events of a successful STEP 2 over the enumerated variant list. -/
def backupEvsSpec (env : Env) (pid : Nat) : List (Nat × Variant) → List Event
  | [] => []
  | (i, v) :: rest => backupVariantEvsSpec env pid i v ++ backupEvsSpec env pid rest

/-- The events of a fatal-free STEP 4 loop over a row list. -/
def recreateEvsSpec (env : Env) : List VRow → List Event
  | [] => []
  | r :: rest => (recreateOne env r).1 ++ recreateEvsSpec env rest

/-- The identity-map entries a fatal-free STEP 4 loop accumulates. -/
def mappingSpec (env : Env) : List VRow → List (Nat × Nat)
  | [] => []
  | r :: rest => (recreateOne env r).2.getD [] ++ mappingSpec env rest

/-- The full event trace of a fatal-free product run: backup and commit,
then non-survivor deletes, non-survivor recreations, the survivor delete,
the survivor recreation, inventory restoration and location cleanup. -/
def runSpecEvents (env : Env) (pid : Nat) (v₀ : Variant) (vs : List Variant) : List Event :=
  let variants := v₀ :: vs
  let firstRow := mkVRow pid 0 v₀
  let tailRows := backupRowsSpec pid (List.enumFrom 1 vs)
  let mapping := mappingSpec env tailRows ++ (recreateOne env firstRow).2.getD []
  Event.fetched pid variants.length ::
    backupEvsSpec env pid (List.enumFrom 0 variants)
    ++ Event.commit :: vs.map (fun v => Event.deleteIssued v.id (env.deleteOk v.id))
    ++ recreateEvsSpec env tailRows
    ++ Event.deleteIssued v₀.id (env.deleteOk v₀.id) :: (recreateOne env firstRow).1
    ++ restoreLoop mapping (invRowsSpec env (List.enumFrom 0 variants))
    ++ cleanupLoop env (origLocsSpec env (List.enumFrom 0 variants)) mapping
    ++ [Event.productDone pid]

/-! ## Concrete environments used by the closed theorems -/

/-- A product with a single variant (N = 1), nothing skipped, deletes and
creates succeeding: the minimal input of the zero-variant-window analysis. -/
def envC1 : Env :=
  { fetchVariants := fun pid => if pid = 10 then some [⟨11, "taglia 40", some "40", none, false⟩] else none
  , invLevels := fun _ => some []
  , deleteOk := fun _ => true
  , createResult := fun i => if i = 11 then some (some 501) else none }

/-- A batch of two products where the first product's second variant lacks
`option1`, making the recreation payload of STEP 4 raise a KeyError. -/
def envC5 : Env :=
  { fetchVariants := fun pid =>
      if pid = 1 then some [⟨41, "a", some "a1", none, false⟩, ⟨42, "b", none, none, false⟩]
      else if pid = 2 then some [⟨43, "c", some "c1", none, false⟩]
      else none
  , invLevels := fun _ => some []
  , deleteOk := fun _ => true
  , createResult := fun i =>
      if i = 41 then some (some 601) else if i = 43 then some (some 603) else some (some 699) }

/-- A product whose first variant has one backed-up inventory level at
location 55 with quantity 9 and whose recreation fails, so its inventory
restoration misses the identity map. -/
def envC7 : Env :=
  { fetchVariants := fun pid =>
      if pid = 1 then some [⟨51, "a", some "a1", some 510, true⟩, ⟨52, "b", some "b1", none, false⟩]
      else none
  , invLevels := fun i => if i = 510 then some [(55, 9)] else some []
  , deleteOk := fun _ => true
  , createResult := fun i => if i = 52 then some (some 700) else none }

/-- The second variant of the envC8 product: no inventory management. -/
def vC8b : Variant := ⟨22, "b", some "b1", some 220, false⟩

/-- The first variant of the envC8 product: managed, stocked at location 70. -/
def vC8a : Variant := ⟨21, "a", some "a1", some 210, true⟩

/-- A product whose second variant has inventory management disabled; its
recreated inventory item 900 currently has a level at location 77. -/
def envC8 : Env :=
  { fetchVariants := fun pid => if pid = 1 then some [vC8a, vC8b] else none
  , invLevels := fun i =>
      if i = 210 then some [(70, 5)]
      else if i = 900 then some [(77, 2)]
      else if i = 901 then some [(70, 4)]
      else some []
  , deleteOk := fun _ => true
  , createResult := fun i => if i = 22 then some (some 900) else if i = 21 then some (some 901) else none }

/-- A product whose deletes and creates all fail (caught and logged), so the
remote state is unchanged and a second pass fetches the same variants. -/
def envC9 : Env :=
  { fetchVariants := fun pid =>
      if pid = 5 then some [⟨11, "a", some "a1", none, false⟩, ⟨12, "b", some "b1", none, false⟩]
      else none
  , invLevels := fun _ => some []
  , deleteOk := fun _ => false
  , createResult := fun _ => none }

/-- First witness variant: managed, one level at location 70. -/
def wA : Variant := ⟨31, "rosso", some "rosso", some 310, true⟩

/-- Second witness variant: managed, but its inventory-level fetch raises. -/
def wB : Variant := ⟨32, "blu", some "blu", some 320, true⟩

/-- Third witness variant: title matches the "perso" exclusion filter, with
one backed-up level at location 71. -/
def wP : Variant := ⟨33, "blu perso", some "p1", some 330, true⟩

/-- The witness environment shared by the instantiations of the general
theorems: three variants, one of which hits the exclusion filter and one of
which hits an inventory-fetch transport failure. -/
def envW : Env :=
  { fetchVariants := fun pid => if pid = 1 then some [wA, wB, wP] else none
  , invLevels := fun i =>
      if i = 310 then some [(70, 5)]
      else if i = 320 then none
      else if i = 330 then some [(71, 4)]
      else some []
  , deleteOk := fun _ => true
  , createResult := fun i => if i = 31 then some (some 980) else if i = 32 then some (some 981) else none }

/-- Strict position-sortedness of a row list. -/
def posSorted : List VRow → Bool
  | [] => true
  | [_] => true
  | a :: b :: rest => decide (a.position < b.position) && posSorted (b :: rest)

/-! ## Characterization lemmas for the run pieces -/

theorem get_inventory_levels_fst (env : Env) (itemId : Nat) :
    (get_inventory_levels env itemId).1 = (env.invLevels itemId).getD [] := by
  unfold get_inventory_levels
  cases env.invLevels itemId <;> rfl

theorem insertLevels_ok (variantId itemId : Nat) (levels : List (Nat × Int)) :
    ∀ (db : DB),
      (∀ q ∈ db.inventory_backup, q.variant_id = variantId → q.location_id ∉ levels.map Prod.fst) →
      (levels.map Prod.fst).Nodup →
      insertLevels variantId itemId levels db =
        ({ db with inventory_backup :=
             db.inventory_backup ++ levels.map (fun lv => IRow.mk variantId itemId lv.1 lv.2) },
         levels.map (fun lv => Event.insertedInventoryRow (IRow.mk variantId itemId lv.1 lv.2)),
         some (levels.map Prod.fst)) := by
  induction levels with
  | nil => intro db _ _; simp [insertLevels]
  | cons lv rest ih =>
    obtain ⟨loc, avail⟩ := lv
    intro db hdb hnd
    have hins : insertInventoryRow db ⟨variantId, itemId, loc, avail⟩ =
        some { db with inventory_backup :=
                 db.inventory_backup ++ [⟨variantId, itemId, loc, avail⟩] } := by
      unfold insertInventoryRow
      rw [if_neg]
      intro hany
      rw [List.any_eq_true] at hany
      obtain ⟨q, hq, hqq⟩ := hany
      rw [Bool.and_eq_true, beq_iff_eq, beq_iff_eq] at hqq
      exact hdb q hq hqq.1 (by simp [hqq.2])
    rw [List.map_cons] at hnd
    have hnd' := List.nodup_cons.mp hnd
    have hdb' : ∀ q ∈ (db.inventory_backup ++ [(⟨variantId, itemId, loc, avail⟩ : IRow)]),
        q.variant_id = variantId → q.location_id ∉ rest.map Prod.fst := by
      intro q hq hqv
      rcases List.mem_append.mp hq with hq | hq
      · have := hdb q hq hqv
        rw [List.map_cons] at this
        exact fun hmem => this (List.mem_cons_of_mem _ hmem)
      · simp only [List.mem_singleton] at hq
        subst hq
        exact hnd'.1
    have ihspec := ih { db with inventory_backup :=
      db.inventory_backup ++ [⟨variantId, itemId, loc, avail⟩] } hdb' hnd'.2
    simp only [insertLevels, hins, ihspec]
    simp [List.append_assoc]

theorem backupLoop_ok (env : Env) (pid : Nat) (l : List (Nat × Variant)) :
    ∀ (db : DB),
      (∀ q ∈ db.variant_backup, q.product_id = pid → ∀ p ∈ l, q.id ≠ p.2.id) →
      (∀ q ∈ db.inventory_backup, ∀ p ∈ l, q.variant_id ≠ p.2.id) →
      (l.map (fun p => p.2.id)).Nodup →
      (∀ p ∈ l, ∀ itemId, optTruthy p.2.inventory_item_id = some itemId →
        (((env.invLevels itemId).getD []).map Prod.fst).Nodup) →
      backupLoop env pid l db =
        (⟨db.variant_backup ++ backupRowsSpec pid l,
          db.inventory_backup ++ invRowsSpec env l⟩,
         backupEvsSpec env pid l,
         some (origLocsSpec env l)) := by
  induction l with
  | nil =>
    intro db _ _ _ _
    simp [backupLoop, backupRowsSpec, invRowsSpec, origLocsSpec, backupEvsSpec]
  | cons p rest ih =>
    obtain ⟨idx, v⟩ := p
    intro db hdb1 hdb2 hids hlocs
    have hins : insertVariantRow db (mkVRow pid idx v) =
        some { db with variant_backup := db.variant_backup ++ [mkVRow pid idx v] } := by
      unfold insertVariantRow
      rw [if_neg]
      intro hany
      rw [List.any_eq_true] at hany
      obtain ⟨q, hq, hqq⟩ := hany
      rw [Bool.and_eq_true, beq_iff_eq, beq_iff_eq] at hqq
      exact hdb1 q hq hqq.1 (idx, v) (List.mem_cons_self _ _) hqq.2
    rw [List.map_cons] at hids
    have hids' := List.nodup_cons.mp hids
    have hnewid : ∀ p ∈ rest, v.id ≠ p.2.id := by
      intro p hp heq
      exact hids'.1 (heq ▸ List.mem_map.mpr ⟨p, hp, rfl⟩)
    have hdb1' : ∀ q ∈ db.variant_backup ++ [mkVRow pid idx v],
        q.product_id = pid → ∀ p ∈ rest, q.id ≠ p.2.id := by
      intro q hq hqp p hp
      rcases List.mem_append.mp hq with hq | hq
      · exact hdb1 q hq hqp p (List.mem_cons_of_mem _ hp)
      · simp only [List.mem_singleton] at hq
        subst hq
        exact hnewid p hp
    have hdb2r : ∀ q ∈ db.inventory_backup, ∀ p ∈ rest, q.variant_id ≠ p.2.id :=
      fun q hq p hp => hdb2 q hq p (List.mem_cons_of_mem _ hp)
    have hlocsr : ∀ p ∈ rest, ∀ itemId, optTruthy p.2.inventory_item_id = some itemId →
        (((env.invLevels itemId).getD []).map Prod.fst).Nodup :=
      fun p hp => hlocs p (List.mem_cons_of_mem _ hp)
    cases hvm : v.inventory_management with
    | false =>
      have ihspec := ih { db with variant_backup := db.variant_backup ++ [mkVRow pid idx v] }
        hdb1' hdb2r hids'.2 hlocsr
      simp only [backupLoop, hins, hvm, ihspec]
      simp [backupRowsSpec, invRowsSpec, origLocsSpec, backupEvsSpec, backupVariantEvsSpec,
        hvm, List.append_assoc]
    | true =>
      cases hot : optTruthy v.inventory_item_id with
      | none =>
        have ihspec := ih { db with variant_backup := db.variant_backup ++ [mkVRow pid idx v] }
          hdb1' hdb2r hids'.2 hlocsr
        simp only [backupLoop, hins, hvm, hot, ihspec]
        simp [backupRowsSpec, invRowsSpec, origLocsSpec, backupEvsSpec, backupVariantEvsSpec,
          hvm, hot, List.append_assoc]
      | some itemId =>
        have hlv : ∀ q ∈ db.inventory_backup, q.variant_id = v.id →
            q.location_id ∉ (((env.invLevels itemId).getD [])).map Prod.fst := by
          intro q hq hqv
          exact absurd hqv (hdb2 q hq (idx, v) (List.mem_cons_self _ _))
        have hlev := insertLevels_ok v.id itemId ((env.invLevels itemId).getD [])
          { db with variant_backup := db.variant_backup ++ [mkVRow pid idx v] }
          hlv (hlocs (idx, v) (List.mem_cons_self _ _) itemId hot)
        have hdb2' : ∀ q ∈ db.inventory_backup ++
            ((env.invLevels itemId).getD []).map (fun lv => IRow.mk v.id itemId lv.1 lv.2),
            ∀ p ∈ rest, q.variant_id ≠ p.2.id := by
          intro q hq p hp
          rcases List.mem_append.mp hq with hq | hq
          · exact hdb2r q hq p hp
          · obtain ⟨lv, _, hlveq⟩ := List.mem_map.mp hq
            subst hlveq
            exact hnewid p hp
        have ihspec := ih { variant_backup := db.variant_backup ++ [mkVRow pid idx v],
                            inventory_backup := db.inventory_backup ++
                              ((env.invLevels itemId).getD []).map
                                (fun lv => IRow.mk v.id itemId lv.1 lv.2) }
          hdb1' hdb2' hids'.2 hlocsr
        simp only [backupLoop, hins, hvm, hot, get_inventory_levels_fst, hlev, ihspec]
        simp [backupRowsSpec, invRowsSpec, origLocsSpec, backupEvsSpec, backupVariantEvsSpec,
          hvm, hot, List.append_assoc]

theorem sortByPosition_eq_self : ∀ l : List VRow, posSorted l = true → sortByPosition l = l
  | [], _ => rfl
  | [_], _ => rfl
  | a :: b :: rest, h => by
    rw [posSorted, Bool.and_eq_true] at h
    have ih := sortByPosition_eq_self (b :: rest) h.2
    rw [sortByPosition, ih, insertByPosition, if_pos (of_decide_eq_true h.1)]

theorem posSorted_backupRows (pid : Nat) : ∀ (l : List Variant) (k : Nat),
    posSorted (backupRowsSpec pid (List.enumFrom k l)) = true
  | [], _ => rfl
  | [_], _ => rfl
  | a :: b :: rest, k => by
    have ih := posSorted_backupRows pid (b :: rest) (k + 1)
    simp only [List.enumFrom, backupRowsSpec, List.map_cons] at ih ⊢
    rw [posSorted, Bool.and_eq_true]
    exact ⟨by simp [mkVRow], ih⟩

theorem backupRows_product_id (pid : Nat) (l : List (Nat × Variant)) :
    ∀ r ∈ backupRowsSpec pid l, r.product_id = pid := by
  intro r hr
  obtain ⟨p, _, hp⟩ := List.mem_map.mp hr
  subst hp
  rfl

theorem backupRows_ids (pid : Nat) : ∀ (l : List Variant) (k : Nat),
    (backupRowsSpec pid (List.enumFrom k l)).map VRow.id = l.map Variant.id
  | [], _ => rfl
  | v :: rest, k => by
    have ih := backupRows_ids pid rest (k + 1)
    simp only [List.enumFrom, backupRowsSpec, List.map_cons] at ih ⊢
    rw [ih]
    rfl

theorem loadRows_filter (db : DB) (pid : Nat) (l : List VRow)
    (hdb1 : ∀ q ∈ db.variant_backup, q.product_id ≠ pid)
    (hl : ∀ r ∈ l, r.product_id = pid) :
    (db.variant_backup ++ l).filter (fun r => r.product_id == pid) = l := by
  rw [List.filter_append]
  have h1 : db.variant_backup.filter (fun r => r.product_id == pid) = [] := by
    rw [List.filter_eq_nil_iff]
    intro q hq
    simpa using hdb1 q hq
  have h2 : l.filter (fun r => r.product_id == pid) = l := by
    rw [List.filter_eq_self]
    intro q hq
    simpa using hl q hq
  rw [h1, h2, List.nil_append]

theorem loadRows_after (db : DB) (pid : Nat) (l : List Variant) (inv : List IRow)
    (hdb1 : ∀ q ∈ db.variant_backup, q.product_id ≠ pid) :
    loadRows ⟨db.variant_backup ++ backupRowsSpec pid (List.enumFrom 0 l), inv⟩ pid
      = backupRowsSpec pid (List.enumFrom 0 l) := by
  unfold loadRows
  rw [loadRows_filter db pid _ hdb1 (backupRows_product_id pid _)]
  exact sortByPosition_eq_self _ (posSorted_backupRows pid l 0)

theorem recreateOne_isSome (env : Env) (r : VRow)
    (h : hasPerso r.variant.title = false → r.variant.option1.isSome = true) :
    (recreateOne env r).2.isSome = true := by
  unfold recreateOne
  cases hp : hasPerso r.variant.title with
  | true => simp [hp]
  | false =>
    cases ho : r.variant.option1 with
    | none => rw [hp] at h; rw [ho] at h; exact absurd (h rfl) (by simp)
    | some o =>
      simp only [hp, ho, Bool.false_eq_true, if_false]
      cases hcr : env.createResult r.id with
      | none => simp [hcr]
      | some resp =>
        cases hot : optTruthy resp with
        | none => simp [hcr, hot]
        | some n => simp [hcr, hot]

theorem recreateLoop_ok (env : Env) : ∀ l : List VRow,
    (∀ r ∈ l, (recreateOne env r).2.isSome = true) →
    recreateLoop env l = (recreateEvsSpec env l, some (mappingSpec env l))
  | [], _ => rfl
  | r :: rest, h => by
    rcases hrec : recreateOne env r with ⟨evs, ores⟩
    cases ores with
    | none =>
      have := h r (List.mem_cons_self _ _)
      rw [hrec] at this
      exact absurd this (by simp)
    | some ms =>
      have ih := recreateLoop_ok env rest (fun x hx => h x (List.mem_cons_of_mem _ hx))
      simp [recreateLoop, recreateEvsSpec, mappingSpec, hrec, ih]

theorem mem_invRowsSpec (env : Env) : ∀ (l : List (Nat × Variant)) (r : IRow),
    r ∈ invRowsSpec env l →
    ∃ p ∈ l, r.variant_id = p.2.id ∧ ∃ itemId,
      optTruthy p.2.inventory_item_id = some itemId ∧
      ∃ lv ∈ (env.invLevels itemId).getD [], r = IRow.mk p.2.id itemId lv.1 lv.2
  | [], r, hr => absurd hr (by simp [invRowsSpec])
  | (idx, v) :: rest, r, hr => by
    rw [invRowsSpec, List.mem_append] at hr
    rcases hr with hr | hr
    · cases hvm : v.inventory_management with
      | false => rw [hvm] at hr; simp at hr
      | true =>
        cases hot : optTruthy v.inventory_item_id with
        | none => rw [hvm, hot] at hr; simp at hr
        | some itemId =>
          rw [hvm, hot] at hr
          obtain ⟨lv, hlv, hreq⟩ := List.mem_map.mp hr
          exact ⟨(idx, v), List.mem_cons_self _ _, by rw [← hreq], itemId, hot, lv, hlv, hreq.symm⟩
    · obtain ⟨p, hp, hrest⟩ := mem_invRowsSpec env rest r hr
      exact ⟨p, List.mem_cons_of_mem _ hp, hrest⟩

theorem invRowsSpec_ids (env : Env) : ∀ (l : List (Nat × Variant)) (r : IRow),
    r ∈ invRowsSpec env l → ∃ p ∈ l, r.variant_id = p.2.id := by
  intro l r hr
  obtain ⟨p, hp, hid, _⟩ := mem_invRowsSpec env l r hr
  exact ⟨p, hp, hid⟩

theorem loadInventoryRows_after (env : Env) (db : DB) (pid : Nat) (l : List Variant)
    (hdb1 : ∀ q ∈ db.variant_backup, q.product_id ≠ pid)
    (hdb2 : ∀ q ∈ db.inventory_backup, ∀ v ∈ l, q.variant_id ≠ v.id) :
    loadInventoryRows ⟨db.variant_backup ++ backupRowsSpec pid (List.enumFrom 0 l),
                       db.inventory_backup ++ invRowsSpec env (List.enumFrom 0 l)⟩ pid
      = invRowsSpec env (List.enumFrom 0 l) := by
  unfold loadInventoryRows
  rw [show (DB.mk (db.variant_backup ++ backupRowsSpec pid (List.enumFrom 0 l))
        (db.inventory_backup ++ invRowsSpec env (List.enumFrom 0 l))).variant_backup
      = db.variant_backup ++ backupRowsSpec pid (List.enumFrom 0 l) from rfl]
  rw [loadRows_filter db pid _ hdb1 (backupRows_product_id pid _)]
  rw [List.filter_append]
  have h1 : db.inventory_backup.filter
      (fun r => (backupRowsSpec pid (List.enumFrom 0 l)).any (fun q => q.id == r.variant_id)) = [] := by
    rw [List.filter_eq_nil_iff]
    intro q hq hany
    rw [List.any_eq_true] at hany
    obtain ⟨row, hrow, heq⟩ := hany
    rw [beq_iff_eq] at heq
    have hrowid : row.id ∈ (backupRowsSpec pid (List.enumFrom 0 l)).map VRow.id :=
      List.mem_map.mpr ⟨row, hrow, rfl⟩
    rw [backupRows_ids] at hrowid
    obtain ⟨v, hv, hvid⟩ := List.mem_map.mp hrowid
    exact hdb2 q hq v hv (by rw [← heq, hvid])
  have h2 : (invRowsSpec env (List.enumFrom 0 l)).filter
      (fun r => (backupRowsSpec pid (List.enumFrom 0 l)).any (fun q => q.id == r.variant_id)) =
      invRowsSpec env (List.enumFrom 0 l) := by
    rw [List.filter_eq_self]
    intro r hr
    obtain ⟨p, hp, hid⟩ := invRowsSpec_ids env _ r hr
    rw [List.any_eq_true]
    have hpid : p.2.id ∈ (backupRowsSpec pid (List.enumFrom 0 l)).map VRow.id := by
      rw [backupRows_ids]
      exact List.mem_map.mpr ⟨p.2, by
        have : p.2 ∈ (List.enumFrom 0 l).map Prod.snd := List.mem_map.mpr ⟨p, hp, rfl⟩
        rwa [List.enumFrom_map_snd] at this, rfl⟩
    obtain ⟨row, hrow, hrowid⟩ := List.mem_map.mp hpid
    exact ⟨row, hrow, by rw [beq_iff_eq, hrowid, hid]⟩
  rw [h1, h2, List.nil_append]

theorem processProduct_ok (env : Env) (db : DB) (pid : Nat) (v₀ : Variant) (vs : List Variant)
    (hfetch : env.fetchVariants pid = some (v₀ :: vs))
    (hdb1 : ∀ q ∈ db.variant_backup, q.product_id ≠ pid)
    (hdb2 : ∀ q ∈ db.inventory_backup, ∀ v ∈ v₀ :: vs, q.variant_id ≠ v.id)
    (hids : ((v₀ :: vs).map Variant.id).Nodup)
    (hlocs : ∀ v ∈ v₀ :: vs, ∀ itemId, optTruthy v.inventory_item_id = some itemId →
        (((env.invLevels itemId).getD []).map Prod.fst).Nodup)
    (hopt : ∀ v ∈ v₀ :: vs, hasPerso v.title = false → v.option1.isSome = true) :
    processProduct env db pid =
      (⟨db.variant_backup ++ backupRowsSpec pid (List.enumFrom 0 (v₀ :: vs)),
        db.inventory_backup ++ invRowsSpec env (List.enumFrom 0 (v₀ :: vs))⟩,
       runSpecEvents env pid v₀ vs, none) := by
  have hsnd : ∀ p ∈ List.enumFrom 0 (v₀ :: vs), p.2 ∈ v₀ :: vs := by
    intro p hp
    have : p.2 ∈ (List.enumFrom 0 (v₀ :: vs)).map Prod.snd := List.mem_map.mpr ⟨p, hp, rfl⟩
    rwa [List.enumFrom_map_snd] at this
  have hb := backupLoop_ok env pid (List.enumFrom 0 (v₀ :: vs)) db
    (fun q hq hqp => absurd hqp (hdb1 q hq))
    (fun q hq p hp => hdb2 q hq p.2 (hsnd p hp))
    (by
      have hmap : (List.enumFrom 0 (v₀ :: vs)).map (fun p => p.2.id)
          = (v₀ :: vs).map Variant.id := by
        rw [show (fun p : Nat × Variant => p.2.id) = Variant.id ∘ Prod.snd from rfl,
          ← List.map_map, List.enumFrom_map_snd]
      rwa [hmap])
    (fun p hp => hlocs p.2 (hsnd p hp))
  have hrows := loadRows_after db pid (v₀ :: vs)
    (db.inventory_backup ++ invRowsSpec env (List.enumFrom 0 (v₀ :: vs))) hdb1
  have htailmem : ∀ r ∈ backupRowsSpec pid (List.enumFrom 1 vs), ∃ v ∈ vs, r.variant = v := by
    intro r hr
    obtain ⟨p, hp, hpr⟩ := List.mem_map.mp hr
    refine ⟨p.2, ?_, by rw [← hpr]; rfl⟩
    have : p.2 ∈ (List.enumFrom 1 vs).map Prod.snd := List.mem_map.mpr ⟨p, hp, rfl⟩
    rwa [List.enumFrom_map_snd] at this
  have hrec := recreateLoop_ok env (backupRowsSpec pid (List.enumFrom 1 vs)) (by
    intro r hr
    obtain ⟨v, hv, hvr⟩ := htailmem r hr
    exact recreateOne_isSome env r (by rw [hvr]; exact hopt v (List.mem_cons_of_mem _ hv)))
  have hfirstsome := recreateOne_isSome env (mkVRow pid 0 v₀)
    (hopt v₀ (List.mem_cons_self _ _))
  obtain ⟨mf, hmf⟩ := Option.isSome_iff_exists.mp hfirstsome
  have hinv := loadInventoryRows_after env db pid (v₀ :: vs) hdb1 hdb2
  have htail : (backupRowsSpec pid (List.enumFrom 0 (v₀ :: vs))).tail
      = backupRowsSpec pid (List.enumFrom 1 vs) := rfl
  have hhead : (backupRowsSpec pid (List.enumFrom 0 (v₀ :: vs))).head?
      = some (mkVRow pid 0 v₀) := rfl
  simp only [processProduct, hfetch, hb, hrows, htail, hhead, hrec, hmf]
  rw [hinv]
  simp only [runSpecEvents, hmf, Option.getD_some]

theorem mem_backupVariantEvsSpec (env : Env) (pid idx : Nat) (v : Variant) (e : Event)
    (he : e ∈ backupVariantEvsSpec env pid idx v) :
    e = Event.insertedVariantRow (mkVRow pid idx v)
    ∨ (∃ it, e = Event.invLevelsError it)
    ∨ (∃ r, e = Event.insertedInventoryRow r) := by
  unfold backupVariantEvsSpec at he
  rcases List.mem_cons.mp he with he | he
  · exact Or.inl he
  · cases hvm : v.inventory_management with
    | false => rw [hvm] at he; simp at he
    | true =>
      cases hot : optTruthy v.inventory_item_id with
      | none => rw [hvm, hot] at he; simp at he
      | some itemId =>
        rw [hvm, hot] at he
        rcases List.mem_append.mp he with he | he
        · unfold get_inventory_levels at he
          cases hlv : env.invLevels itemId with
          | some levels => rw [hlv] at he; simp at he
          | none =>
            rw [hlv] at he
            simp only [List.mem_singleton] at he
            exact Or.inr (Or.inl ⟨itemId, he⟩)
        · obtain ⟨lv, _, hlv⟩ := List.mem_map.mp he
          exact Or.inr (Or.inr ⟨_, hlv.symm⟩)

theorem mem_backupEvsSpec (env : Env) (pid : Nat) :
    ∀ (l : List (Nat × Variant)) (e : Event), e ∈ backupEvsSpec env pid l →
      ∃ p ∈ l, e ∈ backupVariantEvsSpec env pid p.1 p.2
  | [], e, he => absurd he (by simp [backupEvsSpec])
  | (i, v) :: rest, e, he => by
    rw [backupEvsSpec, List.mem_append] at he
    rcases he with he | he
    · exact ⟨(i, v), List.mem_cons_self _ _, he⟩
    · obtain ⟨p, hp, hpe⟩ := mem_backupEvsSpec env pid rest e he
      exact ⟨p, List.mem_cons_of_mem _ hp, hpe⟩

theorem mem_recreateOne (env : Env) (r : VRow) (e : Event) (he : e ∈ (recreateOne env r).1) :
    e = Event.skipPerso r.variant.title
    ∨ e = Event.createIssued r.id
    ∨ (∃ n, e = Event.created r.id n)
    ∨ e = Event.createdNoItem r.id
    ∨ e = Event.createError r.id := by
  simp only [recreateOne] at he
  cases hp : hasPerso r.variant.title with
  | true =>
    simp only [hp, if_true] at he
    simp at he
    exact Or.inl he
  | false =>
    simp only [hp, Bool.false_eq_true, if_false] at he
    cases ho : r.variant.option1 with
    | none => simp only [ho] at he; simp at he
    | some o =>
      simp only [ho] at he
      cases hcr : env.createResult r.id with
      | none =>
        simp only [hcr] at he
        simp at he
        rcases he with he | he
        · exact Or.inr (Or.inl he)
        · exact Or.inr (Or.inr (Or.inr (Or.inr he)))
      | some resp =>
        simp only [hcr] at he
        cases hot : optTruthy resp with
        | none =>
          simp only [hot] at he
          simp at he
          rcases he with he | he
          · exact Or.inr (Or.inl he)
          · exact Or.inr (Or.inr (Or.inr (Or.inl he)))
        | some n =>
          simp only [hot] at he
          simp at he
          rcases he with he | he
          · exact Or.inr (Or.inl he)
          · exact Or.inr (Or.inr (Or.inl ⟨n, he⟩))

theorem mem_recreateEvsSpec (env : Env) :
    ∀ (l : List VRow) (e : Event), e ∈ recreateEvsSpec env l →
      ∃ r ∈ l, e ∈ (recreateOne env r).1
  | [], e, he => absurd he (by simp [recreateEvsSpec])
  | r :: rest, e, he => by
    rw [recreateEvsSpec, List.mem_append] at he
    rcases he with he | he
    · exact ⟨r, List.mem_cons_self _ _, he⟩
    · obtain ⟨q, hq, hqe⟩ := mem_recreateEvsSpec env rest e he
      exact ⟨q, List.mem_cons_of_mem _ hq, hqe⟩

theorem mem_cleanupOne (env : Env) (origLocs : List (Nat × List Nat)) (p : Nat × Nat) (e : Event)
    (he : e ∈ cleanupOne env origLocs p) :
    e = Event.cleanupFetch p.2
    ∨ e = Event.invLevelsError p.2
    ∨ (∃ loc, e = Event.removeIssued p.2 loc) := by
  unfold cleanupOne at he
  rcases List.mem_cons.mp he with he | he
  · exact Or.inl he
  · rcases List.mem_append.mp he with he | he
    · unfold get_inventory_levels at he
      cases hlv : env.invLevels p.2 with
      | some levels => rw [hlv] at he; simp at he
      | none =>
        rw [hlv] at he
        simp only [List.mem_singleton] at he
        exact Or.inr (Or.inl he)
    · obtain ⟨lv, _, hlv⟩ := List.mem_map.mp he
      exact Or.inr (Or.inr ⟨lv.1, hlv.symm⟩)

theorem mem_cleanupLoop (env : Env) (origLocs : List (Nat × List Nat)) :
    ∀ (m : List (Nat × Nat)) (e : Event), e ∈ cleanupLoop env origLocs m →
      ∃ p ∈ m, e ∈ cleanupOne env origLocs p
  | [], e, he => absurd he (by simp [cleanupLoop])
  | p :: rest, e, he => by
    rw [cleanupLoop, List.mem_append] at he
    rcases he with he | he
    · exact ⟨p, List.mem_cons_self _ _, he⟩
    · obtain ⟨q, hq, hqe⟩ := mem_cleanupLoop env origLocs rest e he
      exact ⟨q, List.mem_cons_of_mem _ hq, hqe⟩

theorem mem_restoreLoop (mapping : List (Nat × Nat)) (rows : List IRow) (e : Event)
    (he : e ∈ restoreLoop mapping rows) :
    ∃ r ∈ rows, e = restoreStep mapping r := by
  obtain ⟨r, hr, hre⟩ := List.mem_map.mp he
  exact ⟨r, hr, hre.symm⟩

theorem restoreStep_shape (mapping : List (Nat × Nat)) (r : IRow) :
    (∃ n, mapping.lookup r.variant_id = some n
        ∧ restoreStep mapping r = Event.restoreSet n r.location_id r.available)
    ∨ (mapping.lookup r.variant_id = none
        ∧ restoreStep mapping r = Event.warnUnrestored r.variant_id) := by
  unfold restoreStep
  cases h : mapping.lookup r.variant_id with
  | some n => exact Or.inl ⟨n, rfl, rfl⟩
  | none => exact Or.inr ⟨rfl, rfl⟩

theorem deleteSeq_append (a b : List Event) : deleteSeq (a ++ b) = deleteSeq a ++ deleteSeq b := by
  simp [deleteSeq, List.filterMap_append]

theorem createSeq_append (a b : List Event) : createSeq (a ++ b) = createSeq a ++ createSeq b := by
  simp [createSeq, List.filterMap_append]

theorem deleteSeq_eq_nil (evs : List Event) (h : ∀ e ∈ evs, isDeleteEvent e = false) :
    deleteSeq evs = [] := by
  unfold deleteSeq
  rw [List.filterMap_eq_nil_iff]
  intro e he
  have hne := h e he
  cases e <;> first | rfl | simp [isDeleteEvent] at hne

theorem createSeq_eq_nil (evs : List Event)
    (h : ∀ e ∈ evs, ∀ i, e ≠ Event.createIssued i) : createSeq evs = [] := by
  unfold createSeq
  rw [List.filterMap_eq_nil_iff]
  intro e he
  cases e with
  | createIssued i => exact absurd rfl (h _ he i)
  | _ => rfl

theorem deleteSeq_backupEvs (env : Env) (pid : Nat) (l : List (Nat × Variant)) :
    deleteSeq (backupEvsSpec env pid l) = [] := by
  apply deleteSeq_eq_nil
  intro e he
  obtain ⟨p, _, hpe⟩ := mem_backupEvsSpec env pid l e he
  rcases mem_backupVariantEvsSpec env pid p.1 p.2 e hpe with h | ⟨it, h⟩ | ⟨r, h⟩ <;>
    subst h <;> rfl

theorem createSeq_backupEvs (env : Env) (pid : Nat) (l : List (Nat × Variant)) :
    createSeq (backupEvsSpec env pid l) = [] := by
  apply createSeq_eq_nil
  intro e he i
  obtain ⟨p, _, hpe⟩ := mem_backupEvsSpec env pid l e he
  rcases mem_backupVariantEvsSpec env pid p.1 p.2 e hpe with h | ⟨it, h⟩ | ⟨r, h⟩ <;>
    subst h <;> simp

theorem deleteSeq_recreateEvs (env : Env) (l : List VRow) :
    deleteSeq (recreateEvsSpec env l) = [] := by
  apply deleteSeq_eq_nil
  intro e he
  obtain ⟨r, _, hre⟩ := mem_recreateEvsSpec env l e he
  rcases mem_recreateOne env r e hre with h | h | ⟨n, h⟩ | h | h <;> subst h <;> rfl

theorem deleteSeq_recreateOne (env : Env) (r : VRow) :
    deleteSeq (recreateOne env r).1 = [] := by
  apply deleteSeq_eq_nil
  intro e he
  rcases mem_recreateOne env r e he with h | h | ⟨n, h⟩ | h | h <;> subst h <;> rfl

theorem deleteSeq_restoreLoop (mapping : List (Nat × Nat)) (rows : List IRow) :
    deleteSeq (restoreLoop mapping rows) = [] := by
  apply deleteSeq_eq_nil
  intro e he
  obtain ⟨r, _, hre⟩ := mem_restoreLoop mapping rows e he
  subst hre
  rcases restoreStep_shape mapping r with ⟨n, _, h⟩ | ⟨_, h⟩ <;> rw [h] <;> rfl

theorem createSeq_restoreLoop (mapping : List (Nat × Nat)) (rows : List IRow) :
    createSeq (restoreLoop mapping rows) = [] := by
  apply createSeq_eq_nil
  intro e he i
  obtain ⟨r, _, hre⟩ := mem_restoreLoop mapping rows e he
  subst hre
  rcases restoreStep_shape mapping r with ⟨n, _, h⟩ | ⟨_, h⟩ <;> rw [h] <;> simp

theorem deleteSeq_cleanupLoop (env : Env) (origLocs : List (Nat × List Nat)) (m : List (Nat × Nat)) :
    deleteSeq (cleanupLoop env origLocs m) = [] := by
  apply deleteSeq_eq_nil
  intro e he
  obtain ⟨p, _, hpe⟩ := mem_cleanupLoop env origLocs m e he
  rcases mem_cleanupOne env origLocs p e hpe with h | h | ⟨loc, h⟩ <;> subst h <;> rfl

theorem createSeq_cleanupLoop (env : Env) (origLocs : List (Nat × List Nat)) (m : List (Nat × Nat)) :
    createSeq (cleanupLoop env origLocs m) = [] := by
  apply createSeq_eq_nil
  intro e he i
  obtain ⟨p, _, hpe⟩ := mem_cleanupLoop env origLocs m e he
  rcases mem_cleanupOne env origLocs p e hpe with h | h | ⟨loc, h⟩ <;> subst h <;> simp

theorem deleteSeq_deletes (f : Variant → Bool) : ∀ vs : List Variant,
    deleteSeq (vs.map (fun v => Event.deleteIssued v.id (f v))) = vs.map Variant.id
  | [] => rfl
  | v :: rest => by
    have ih := deleteSeq_deletes f rest
    unfold deleteSeq at ih
    simp only [List.map_cons, deleteSeq, List.filterMap_cons]
    rw [ih]

theorem createSeq_recreateOne (env : Env) (r : VRow)
    (h : hasPerso r.variant.title = false → r.variant.option1.isSome = true) :
    createSeq (recreateOne env r).1
      = if hasPerso r.variant.title then [] else [r.id] := by
  simp only [recreateOne]
  cases hp : hasPerso r.variant.title with
  | true => simp [hp, createSeq]
  | false =>
    cases ho : r.variant.option1 with
    | none =>
      rw [hp] at h; rw [ho] at h
      exact absurd (h rfl) (by simp)
    | some o =>
      simp only [hp, ho, Bool.false_eq_true, if_false]
      cases hcr : env.createResult r.id with
      | none => simp [createSeq]
      | some resp =>
        cases hot : optTruthy resp with
        | none => simp [hot, createSeq]
        | some n => simp [hot, createSeq]

theorem createSeq_recreateEvs (env : Env) : ∀ l : List VRow,
    (∀ r ∈ l, hasPerso r.variant.title = false → r.variant.option1.isSome = true) →
    createSeq (recreateEvsSpec env l)
      = (l.filter (fun r => !hasPerso r.variant.title)).map VRow.id
  | [], _ => rfl
  | r :: rest, h => by
    rw [recreateEvsSpec, createSeq_append,
      createSeq_recreateOne env r (h r (List.mem_cons_self _ _)),
      createSeq_recreateEvs env rest (fun q hq => h q (List.mem_cons_of_mem _ hq))]
    cases hp : hasPerso r.variant.title with
    | true => simp [List.filter_cons, hp]
    | false => simp [List.filter_cons, hp]

theorem filter_backupRows_ids (pid : Nat) : ∀ (vs : List Variant) (k : Nat),
    ((backupRowsSpec pid (List.enumFrom k vs)).filter
        (fun r => !hasPerso r.variant.title)).map VRow.id
      = (vs.filter (fun v => !hasPerso v.title)).map Variant.id
  | [], _ => rfl
  | v :: rest, k => by
    have ih := filter_backupRows_ids pid rest (k + 1)
    simp only [List.enumFrom, backupRowsSpec, List.map_cons] at ih ⊢
    rw [List.filter_cons, List.filter_cons]
    cases hp : hasPerso v.title with
    | true =>
      simp only [show (mkVRow pid k v).variant = v from rfl, hp]
      simpa using ih
    | false =>
      simp only [show (mkVRow pid k v).variant = v from rfl, hp]
      simp only [Bool.not_false, if_pos, List.map_cons]
      rw [show (mkVRow pid k v).id = v.id from rfl]
      simpa using ih

theorem createSeq_deletes (f : Variant → Bool) (vs : List Variant) :
    createSeq (vs.map (fun v => Event.deleteIssued v.id (f v))) = [] := by
  apply createSeq_eq_nil
  intro e he i
  obtain ⟨v, _, hv⟩ := List.mem_map.mp he
  subst hv
  simp

theorem deleteSeq_runSpec (env : Env) (pid : Nat) (v₀ : Variant) (vs : List Variant) :
    deleteSeq (runSpecEvents env pid v₀ vs) = vs.map Variant.id ++ [v₀.id] := by
  have h1 := deleteSeq_backupEvs env pid ((0, v₀) :: List.enumFrom 1 vs)
  have h2 := deleteSeq_deletes (fun v => env.deleteOk v.id) vs
  have h3 := deleteSeq_recreateEvs env (backupRowsSpec pid (List.enumFrom 1 vs))
  have h4 := deleteSeq_recreateOne env (mkVRow pid 0 v₀)
  have h5 := deleteSeq_restoreLoop (mappingSpec env (backupRowsSpec pid (List.enumFrom 1 vs))
      ++ (recreateOne env (mkVRow pid 0 v₀)).2.getD [])
      (invRowsSpec env ((0, v₀) :: List.enumFrom 1 vs))
  have h6 := deleteSeq_cleanupLoop env (origLocsSpec env ((0, v₀) :: List.enumFrom 1 vs))
      (mappingSpec env (backupRowsSpec pid (List.enumFrom 1 vs))
        ++ (recreateOne env (mkVRow pid 0 v₀)).2.getD [])
  unfold deleteSeq at h1 h2 h3 h4 h5 h6 ⊢
  simp [runSpecEvents, List.filterMap_append, List.filterMap_cons, h1, h2, h3, h4, h5, h6]

theorem createSeq_runSpec (env : Env) (pid : Nat) (v₀ : Variant) (vs : List Variant)
    (hopt : ∀ v ∈ v₀ :: vs, hasPerso v.title = false → v.option1.isSome = true) :
    createSeq (runSpecEvents env pid v₀ vs)
      = (vs.filter (fun v => !hasPerso v.title)).map Variant.id
        ++ (if hasPerso v₀.title then [] else [v₀.id]) := by
  have h1 := createSeq_backupEvs env pid ((0, v₀) :: List.enumFrom 1 vs)
  have h2 := createSeq_deletes (fun v => env.deleteOk v.id) vs
  have htailopt : ∀ r ∈ backupRowsSpec pid (List.enumFrom 1 vs),
      hasPerso r.variant.title = false → r.variant.option1.isSome = true := by
    intro r hr
    obtain ⟨p, hp, hpr⟩ := List.mem_map.mp hr
    have hmem : p.2 ∈ vs := by
      have : p.2 ∈ (List.enumFrom 1 vs).map Prod.snd := List.mem_map.mpr ⟨p, hp, rfl⟩
      rwa [List.enumFrom_map_snd] at this
    rw [← hpr]
    exact hopt p.2 (List.mem_cons_of_mem _ hmem)
  have h3 := createSeq_recreateEvs env (backupRowsSpec pid (List.enumFrom 1 vs)) htailopt
  rw [filter_backupRows_ids pid vs 1] at h3
  have h4 := createSeq_recreateOne env (mkVRow pid 0 v₀)
    (hopt v₀ (List.mem_cons_self _ _))
  have h5 := createSeq_restoreLoop (mappingSpec env (backupRowsSpec pid (List.enumFrom 1 vs))
      ++ (recreateOne env (mkVRow pid 0 v₀)).2.getD [])
      (invRowsSpec env ((0, v₀) :: List.enumFrom 1 vs))
  have h6 := createSeq_cleanupLoop env (origLocsSpec env ((0, v₀) :: List.enumFrom 1 vs))
      (mappingSpec env (backupRowsSpec pid (List.enumFrom 1 vs))
        ++ (recreateOne env (mkVRow pid 0 v₀)).2.getD [])
  unfold createSeq at h1 h2 h3 h4 h5 h6 ⊢
  simp only [runSpecEvents, List.filterMap_append, List.filterMap_cons, h1, h2, h3, h4, h5, h6]
  cases hp : hasPerso v₀.title <;>
    simp only [show (mkVRow pid 0 v₀).variant = v₀ from rfl,
      show (mkVRow pid 0 v₀).id = v₀.id from rfl, hp, if_true, Bool.true_eq_false,
      Bool.false_eq_true, if_false] at h4 <;>
    simp [h1, h4, h5, h6, hp, show (mkVRow pid 0 v₀).variant = v₀ from rfl,
      show (mkVRow pid 0 v₀).id = v₀.id from rfl]

/-- C2: for a product whose fetch returns variants `v₀ :: vs`, processed on a
backup store without prior rows for it, in a run that raises no uncaught
exception, the first variant in FETCH-time order is the designated survivor:
the sequence of issued variant deletes is exactly the non-survivors in order
followed by the first variant (it is deleted last), and the sequence of
issued variant creations is exactly the non-skipped non-survivors in order
followed, when it is not itself skipped, by the first variant (it is
recreated last). -/
theorem C2_survivor_first_ordering (env : Env) (db : DB) (pid : Nat)
    (v₀ : Variant) (vs : List Variant)
    (hfetch : env.fetchVariants pid = some (v₀ :: vs))
    (hdb1 : ∀ q ∈ db.variant_backup, q.product_id ≠ pid)
    (hdb2 : ∀ q ∈ db.inventory_backup, ∀ v ∈ v₀ :: vs, q.variant_id ≠ v.id)
    (hids : ((v₀ :: vs).map Variant.id).Nodup)
    (hlocs : ∀ v ∈ v₀ :: vs, ∀ itemId, optTruthy v.inventory_item_id = some itemId →
        (((env.invLevels itemId).getD []).map Prod.fst).Nodup)
    (hopt : ∀ v ∈ v₀ :: vs, hasPerso v.title = false → v.option1.isSome = true) :
    deleteSeq (processProduct env db pid).2.1 = vs.map Variant.id ++ [v₀.id]
    ∧ createSeq (processProduct env db pid).2.1
        = (vs.filter (fun v => !hasPerso v.title)).map Variant.id
          ++ (if hasPerso v₀.title then [] else [v₀.id]) := by
  rw [processProduct_ok env db pid v₀ vs hfetch hdb1 hdb2 hids hlocs hopt]
  exact ⟨deleteSeq_runSpec env pid v₀ vs, createSeq_runSpec env pid v₀ vs hopt⟩

theorem envW_locs_nodup : ∀ itemId : Nat,
    (((envW.invLevels itemId).getD []).map Prod.fst).Nodup := by
  intro i
  simp only [envW]
  split
  · decide
  · split
    · decide
    · split
      · decide
      · decide

/-- Witness for C2 at the concrete three-variant product of `envW`. -/
theorem C2_survivor_first_ordering_witness :
    deleteSeq (processProduct envW ⟨[], []⟩ 1).2.1 = [wB, wP].map Variant.id ++ [wA.id]
    ∧ createSeq (processProduct envW ⟨[], []⟩ 1).2.1
        = ([wB, wP].filter (fun v => !hasPerso v.title)).map Variant.id
          ++ (if hasPerso wA.title then [] else [wA.id]) :=
  C2_survivor_first_ordering envW ⟨[], []⟩ 1 wA [wB, wP] rfl
    (by intro q hq; simp at hq)
    (by intro q hq; simp at hq)
    (by decide)
    (fun v _ itemId _ => envW_locs_nodup itemId)
    (by decide)

theorem variantRows_backupVariantEvs (env : Env) (pid idx : Nat) (v : Variant) :
    (backupVariantEvsSpec env pid idx v).filterMap variantRowOf = [mkVRow pid idx v] := by
  unfold backupVariantEvsSpec
  rw [List.filterMap_cons]
  have htail : (match v.inventory_management, optTruthy v.inventory_item_id with
      | true, some itemId =>
        (get_inventory_levels env itemId).2
          ++ ((env.invLevels itemId).getD []).map
              (fun lv : Nat × Int => Event.insertedInventoryRow (IRow.mk v.id itemId lv.1 lv.2))
      | _, _ => ([] : List Event)).filterMap variantRowOf = [] := by
    rw [List.filterMap_eq_nil_iff]
    intro e he
    cases hvm : v.inventory_management with
    | false => rw [hvm] at he; simp at he
    | true =>
      cases hot : optTruthy v.inventory_item_id with
      | none => rw [hvm, hot] at he; simp at he
      | some itemId =>
        rw [hvm, hot] at he
        rcases List.mem_append.mp he with he | he
        · unfold get_inventory_levels at he
          cases hlv : env.invLevels itemId with
          | some levels => rw [hlv] at he; simp at he
          | none =>
            rw [hlv] at he
            simp only [List.mem_singleton] at he
            subst he; rfl
        · obtain ⟨lv, _, hlv⟩ := List.mem_map.mp he
          subst hlv; rfl
  rw [htail]
  rfl

theorem invRows_backupVariantEvs (env : Env) (pid idx : Nat) (v : Variant) :
    (backupVariantEvsSpec env pid idx v).filterMap invRowOf
      = (match v.inventory_management, optTruthy v.inventory_item_id with
        | true, some itemId =>
          ((env.invLevels itemId).getD []).map (fun lv : Nat × Int => IRow.mk v.id itemId lv.1 lv.2)
        | _, _ => []) := by
  unfold backupVariantEvsSpec
  rw [List.filterMap_cons]
  cases hvm : v.inventory_management with
  | false => simp [invRowOf, variantRowOf]
  | true =>
    cases hot : optTruthy v.inventory_item_id with
    | none => simp [invRowOf]
    | some itemId =>
      simp only [invRowOf, List.filterMap_append]
      have herr : ((get_inventory_levels env itemId).2).filterMap invRowOf = [] := by
        unfold get_inventory_levels
        cases hlv : env.invLevels itemId <;> simp [invRowOf]
      have hmap : (((env.invLevels itemId).getD []).map
          (fun lv => Event.insertedInventoryRow (IRow.mk v.id itemId lv.1 lv.2))).filterMap invRowOf
          = ((env.invLevels itemId).getD []).map (fun lv => IRow.mk v.id itemId lv.1 lv.2) := by
        induction (env.invLevels itemId).getD [] with
        | nil => rfl
        | cons lv rest ih => simp [List.filterMap_cons, invRowOf, ih]
      rw [herr, hmap]
      rfl

theorem variantRows_backupEvs (env : Env) (pid : Nat) : ∀ l : List (Nat × Variant),
    (backupEvsSpec env pid l).filterMap variantRowOf = backupRowsSpec pid l
  | [] => rfl
  | (i, v) :: rest => by
    rw [backupEvsSpec, List.filterMap_append, variantRows_backupVariantEvs,
      variantRows_backupEvs env pid rest]
    rfl

theorem invRows_backupEvs (env : Env) (pid : Nat) : ∀ l : List (Nat × Variant),
    (backupEvsSpec env pid l).filterMap invRowOf = invRowsSpec env l
  | [] => rfl
  | (i, v) :: rest => by
    rw [backupEvsSpec, List.filterMap_append, invRows_backupVariantEvs,
      invRows_backupEvs env pid rest]
    rfl

theorem pre_no_delete (env : Env) (pid n : Nat) (l : List (Nat × Variant)) :
    ∀ e ∈ Event.fetched pid n :: backupEvsSpec env pid l, isDeleteEvent e = false := by
  intro e he
  rcases List.mem_cons.mp he with he | he
  · subst he; rfl
  · obtain ⟨p, _, hpe⟩ := mem_backupEvsSpec env pid l e he
    rcases mem_backupVariantEvsSpec env pid p.1 p.2 e hpe with h | ⟨it, h⟩ | ⟨r, h⟩ <;>
      subst h <;> rfl

theorem post_events_shape (env : Env) (pid : Nat) (v₀ : Variant) (vs : List Variant)
    (tailRows : List VRow) (mapping : List (Nat × Nat)) (rows : List IRow)
    (origLocs : List (Nat × List Nat)) :
    ∀ e ∈ vs.map (fun v => Event.deleteIssued v.id (env.deleteOk v.id))
        ++ (recreateEvsSpec env tailRows
          ++ Event.deleteIssued v₀.id (env.deleteOk v₀.id)
            :: ((recreateOne env (mkVRow pid 0 v₀)).1
              ++ (restoreLoop mapping rows
                ++ (cleanupLoop env origLocs mapping ++ [Event.productDone pid])))),
      isBackupWrite e = false ∧ e ≠ Event.commit := by
  intro e he
  rcases List.mem_append.mp he with he | he
  · obtain ⟨v, _, hv⟩ := List.mem_map.mp he
    subst hv; exact ⟨rfl, by simp⟩
  rcases List.mem_append.mp he with he | he
  · obtain ⟨r, _, hre⟩ := mem_recreateEvsSpec env _ e he
    rcases mem_recreateOne env r e hre with h | h | ⟨n, h⟩ | h | h <;> subst h <;>
      exact ⟨rfl, by simp⟩
  rcases List.mem_cons.mp he with he | he
  · subst he; exact ⟨rfl, by simp⟩
  rcases List.mem_append.mp he with he | he
  · rcases mem_recreateOne env _ e he with h | h | ⟨n, h⟩ | h | h <;> subst h <;>
      exact ⟨rfl, by simp⟩
  rcases List.mem_append.mp he with he | he
  · obtain ⟨r, _, hre⟩ := mem_restoreLoop mapping rows e he
    subst hre
    rcases restoreStep_shape mapping r with ⟨n, _, h⟩ | ⟨_, h⟩ <;> rw [h] <;>
      exact ⟨rfl, by simp⟩
  rcases List.mem_append.mp he with he | he
  · obtain ⟨p, _, hpe⟩ := mem_cleanupLoop env origLocs mapping e he
    rcases mem_cleanupOne env origLocs p e hpe with h | h | ⟨loc, h⟩ <;> subst h <;>
      exact ⟨rfl, by simp⟩
  · simp only [List.mem_singleton] at he
    subst he; exact ⟨rfl, by simp⟩

/-- C3: for a product whose fetch returns variants `v₀ :: vs`, processed on a
backup store without prior rows for it, in a run that raises no uncaught
exception, every backup-store write of the product precedes the commit, the
commit precedes every remote variant delete and no further store write or
commit follows it; the variant rows written enumerate the FETCH order with
positions starting at 0, and the inventory rows written are exactly the
fetched levels of the variants with truthy inventory management and a truthy
inventory-item reference. -/
theorem C3_backup_committed_before_deletes (env : Env) (db : DB) (pid : Nat)
    (v₀ : Variant) (vs : List Variant)
    (hfetch : env.fetchVariants pid = some (v₀ :: vs))
    (hdb1 : ∀ q ∈ db.variant_backup, q.product_id ≠ pid)
    (hdb2 : ∀ q ∈ db.inventory_backup, ∀ v ∈ v₀ :: vs, q.variant_id ≠ v.id)
    (hids : ((v₀ :: vs).map Variant.id).Nodup)
    (hlocs : ∀ v ∈ v₀ :: vs, ∀ itemId, optTruthy v.inventory_item_id = some itemId →
        (((env.invLevels itemId).getD []).map Prod.fst).Nodup)
    (hopt : ∀ v ∈ v₀ :: vs, hasPerso v.title = false → v.option1.isSome = true) :
    ∃ post,
      (processProduct env db pid).2.1
        = (Event.fetched pid (v₀ :: vs).length
            :: backupEvsSpec env pid (List.enumFrom 0 (v₀ :: vs)))
          ++ Event.commit :: post
      ∧ (∀ e ∈ Event.fetched pid (v₀ :: vs).length
            :: backupEvsSpec env pid (List.enumFrom 0 (v₀ :: vs)), isDeleteEvent e = false)
      ∧ (∀ e ∈ post, isBackupWrite e = false ∧ e ≠ Event.commit)
      ∧ (backupEvsSpec env pid (List.enumFrom 0 (v₀ :: vs))).filterMap variantRowOf
          = backupRowsSpec pid (List.enumFrom 0 (v₀ :: vs))
      ∧ (backupEvsSpec env pid (List.enumFrom 0 (v₀ :: vs))).filterMap invRowOf
          = invRowsSpec env (List.enumFrom 0 (v₀ :: vs)) := by
  rw [processProduct_ok env db pid v₀ vs hfetch hdb1 hdb2 hids hlocs hopt]
  refine ⟨vs.map (fun v => Event.deleteIssued v.id (env.deleteOk v.id))
      ++ (recreateEvsSpec env (backupRowsSpec pid (List.enumFrom 1 vs))
        ++ Event.deleteIssued v₀.id (env.deleteOk v₀.id)
          :: ((recreateOne env (mkVRow pid 0 v₀)).1
            ++ (restoreLoop (mappingSpec env (backupRowsSpec pid (List.enumFrom 1 vs))
                  ++ (recreateOne env (mkVRow pid 0 v₀)).2.getD [])
                (invRowsSpec env (List.enumFrom 0 (v₀ :: vs)))
              ++ (cleanupLoop env (origLocsSpec env (List.enumFrom 0 (v₀ :: vs)))
                  (mappingSpec env (backupRowsSpec pid (List.enumFrom 1 vs))
                    ++ (recreateOne env (mkVRow pid 0 v₀)).2.getD [])
                ++ [Event.productDone pid])))),
    ?_, pre_no_delete env pid _ _, post_events_shape env pid v₀ vs _ _ _ _,
    variantRows_backupEvs env pid _, invRows_backupEvs env pid _⟩
  simp [runSpecEvents, List.append_assoc]

theorem mem_rows_variant (pid : Nat) (vs : List Variant) (k : Nat) (r : VRow)
    (hr : r ∈ backupRowsSpec pid (List.enumFrom k vs)) :
    r.variant ∈ vs ∧ r.id = r.variant.id := by
  obtain ⟨p, hp, hpr⟩ := List.mem_map.mp hr
  subst hpr
  refine ⟨?_, rfl⟩
  have : p.2 ∈ (List.enumFrom k vs).map Prod.snd := List.mem_map.mpr ⟨p, hp, rfl⟩
  rwa [List.enumFrom_map_snd] at this

theorem rows_of_mem (pid : Nat) : ∀ (vs : List Variant) (k : Nat) (v : Variant), v ∈ vs →
    ∃ r ∈ backupRowsSpec pid (List.enumFrom k vs), r.variant = v ∧ r.id = v.id
  | v' :: rest, k, v, hv => by
    rcases List.mem_cons.mp hv with hv | hv
    · subst hv
      exact ⟨mkVRow pid k v, List.mem_cons_self _ _, rfl, rfl⟩
    · obtain ⟨r, hr, hrv⟩ := rows_of_mem pid rest (k + 1) v hv
      exact ⟨r, List.mem_cons_of_mem _ hr, hrv⟩

theorem skipPerso_mem_recreateEvs (env : Env) (l : List VRow) (r : VRow) (hr : r ∈ l)
    (hp : hasPerso r.variant.title = true) :
    Event.skipPerso r.variant.title ∈ recreateEvsSpec env l := by
  induction l with
  | nil => simp at hr
  | cons q rest ih =>
    rw [recreateEvsSpec, List.mem_append]
    rcases List.mem_cons.mp hr with hq | hq
    · subst hq
      exact Or.inl (by simp [recreateOne, hp])
    · exact Or.inr (ih hq)

theorem created_of_recreateOne (env : Env) (r : VRow) (u n : Nat)
    (h : Event.created u n ∈ (recreateOne env r).1) :
    u = r.id ∧ hasPerso r.variant.title = false := by
  simp only [recreateOne] at h
  cases hp : hasPerso r.variant.title with
  | true => simp only [hp, if_true] at h; simp at h
  | false =>
    refine ⟨?_, rfl⟩
    simp only [hp, Bool.false_eq_true, if_false] at h
    cases ho : r.variant.option1 with
    | none => simp only [ho] at h; simp at h
    | some o =>
      simp only [ho] at h
      cases hcr : env.createResult r.id with
      | none => simp only [hcr] at h; simp at h
      | some resp =>
        simp only [hcr] at h
        cases hot : optTruthy resp with
        | none => simp only [hot] at h; simp at h
        | some m =>
          simp only [hot] at h
          simp at h
          exact h.1

theorem mapKey_of_recreateOne (env : Env) (r : VRow) (u n : Nat)
    (h : (u, n) ∈ (recreateOne env r).2.getD []) :
    u = r.id ∧ hasPerso r.variant.title = false := by
  simp only [recreateOne] at h
  cases hp : hasPerso r.variant.title with
  | true => simp only [hp, if_true] at h; simp at h
  | false =>
    refine ⟨?_, rfl⟩
    simp only [hp, Bool.false_eq_true, if_false] at h
    cases ho : r.variant.option1 with
    | none => simp only [ho] at h; simp at h
    | some o =>
      simp only [ho] at h
      cases hcr : env.createResult r.id with
      | none => simp only [hcr] at h; simp at h
      | some resp =>
        simp only [hcr] at h
        cases hot : optTruthy resp with
        | none => simp only [hot] at h; simp at h
        | some m =>
          simp only [hot] at h
          simp at h
          exact h.1

theorem mappingSpec_keys (env : Env) : ∀ (l : List VRow) (u n : Nat),
    (u, n) ∈ mappingSpec env l → ∃ r ∈ l, r.id = u ∧ hasPerso r.variant.title = false
  | [], u, n, h => absurd h (by simp [mappingSpec])
  | r :: rest, u, n, h => by
    rw [mappingSpec, List.mem_append] at h
    rcases h with h | h
    · obtain ⟨hu, hp⟩ := mapKey_of_recreateOne env r u n h
      exact ⟨r, List.mem_cons_self _ _, hu.symm, hp⟩
    · obtain ⟨q, hq, hqq⟩ := mappingSpec_keys env rest u n h
      exact ⟨q, List.mem_cons_of_mem _ hq, hqq⟩

theorem mem_runSpec_iff (env : Env) (pid : Nat) (v₀ : Variant) (vs : List Variant) (e : Event) :
    e ∈ runSpecEvents env pid v₀ vs ↔
      (e = Event.fetched pid (v₀ :: vs).length
      ∨ e ∈ backupEvsSpec env pid (List.enumFrom 0 (v₀ :: vs))
      ∨ e = Event.commit
      ∨ e ∈ vs.map (fun v => Event.deleteIssued v.id (env.deleteOk v.id))
      ∨ e ∈ recreateEvsSpec env (backupRowsSpec pid (List.enumFrom 1 vs))
      ∨ e = Event.deleteIssued v₀.id (env.deleteOk v₀.id)
      ∨ e ∈ (recreateOne env (mkVRow pid 0 v₀)).1
      ∨ e ∈ restoreLoop (mappingSpec env (backupRowsSpec pid (List.enumFrom 1 vs))
            ++ (recreateOne env (mkVRow pid 0 v₀)).2.getD [])
            (invRowsSpec env (List.enumFrom 0 (v₀ :: vs)))
      ∨ e ∈ cleanupLoop env (origLocsSpec env (List.enumFrom 0 (v₀ :: vs)))
            (mappingSpec env (backupRowsSpec pid (List.enumFrom 1 vs))
              ++ (recreateOne env (mkVRow pid 0 v₀)).2.getD [])
      ∨ e = Event.productDone pid) := by
  simp only [runSpecEvents, List.mem_cons, List.mem_append, List.mem_singleton]
  tauto



/-- C6: for a backed-up variant (survivor or not) whose title contains the
exclusion marker "perso" case-insensitively, a fatal-free reset run logs the
skip, issues no creation request for it and never adds an identity-map
entry for it (no `created` event names its id); every backed-up inventory
row it owns is reported as unrestorable, and every restored quantity comes
from a backed-up row owned by a different variant, so the skipped variant's
inventory is never applied to another variant's new inventory item. -/
theorem C6_perso_exclusion (env : Env) (db : DB) (pid : Nat)
    (v₀ : Variant) (vs : List Variant)
    (hfetch : env.fetchVariants pid = some (v₀ :: vs))
    (hdb1 : ∀ q ∈ db.variant_backup, q.product_id ≠ pid)
    (hdb2 : ∀ q ∈ db.inventory_backup, ∀ v ∈ v₀ :: vs, q.variant_id ≠ v.id)
    (hids : ((v₀ :: vs).map Variant.id).Nodup)
    (hlocs : ∀ v ∈ v₀ :: vs, ∀ itemId, optTruthy v.inventory_item_id = some itemId →
        (((env.invLevels itemId).getD []).map Prod.fst).Nodup)
    (hopt : ∀ v ∈ v₀ :: vs, hasPerso v.title = false → v.option1.isSome = true)
    (v : Variant) (hv : v ∈ v₀ :: vs) (hperso : hasPerso v.title = true) :
    Event.skipPerso v.title ∈ (processProduct env db pid).2.1
    ∧ v.id ∉ createSeq (processProduct env db pid).2.1
    ∧ (∀ n, Event.created v.id n ∉ (processProduct env db pid).2.1)
    ∧ (∀ r ∈ (processProduct env db pid).1.inventory_backup, r.variant_id = v.id →
        Event.warnUnrestored v.id ∈ (processProduct env db pid).2.1)
    ∧ (∀ n loc q, Event.restoreSet n loc q ∈ (processProduct env db pid).2.1 →
        ∃ u itemId, u ≠ v.id
          ∧ IRow.mk u itemId loc q ∈ (processProduct env db pid).1.inventory_backup) := by
  rw [processProduct_ok env db pid v₀ vs hfetch hdb1 hdb2 hids hlocs hopt]
  have hinj := List.inj_on_of_nodup_map hids
  have hkeyne : ∀ u n, (u, n) ∈ mappingSpec env (backupRowsSpec pid (List.enumFrom 1 vs))
      ++ (recreateOne env (mkVRow pid 0 v₀)).2.getD [] → u ≠ v.id := by
    intro u n hun hu
    subst hu
    rcases List.mem_append.mp hun with hun | hun
    · obtain ⟨r, hr, hrid, hrp⟩ := mappingSpec_keys env _ _ _ hun
      obtain ⟨hrv, hrid2⟩ := mem_rows_variant pid vs 1 r hr
      have heq : r.variant = v := hinj (List.mem_cons_of_mem _ hrv) hv
        (by rw [show Variant.id r.variant = r.variant.id from rfl, ← hrid2, hrid])
      rw [heq, hperso] at hrp
      exact absurd hrp (by simp)
    · obtain ⟨hu0, hp0⟩ := mapKey_of_recreateOne env _ _ _ hun
      have heq : v₀ = v := hinj (List.mem_cons_self _ _) hv hu0.symm
      have hp1 : hasPerso v₀.title = false := hp0
      rw [heq, hperso] at hp1
      exact absurd hp1 (by simp)
  have hlookup : (mappingSpec env (backupRowsSpec pid (List.enumFrom 1 vs))
      ++ (recreateOne env (mkVRow pid 0 v₀)).2.getD []).lookup v.id = none := by
    rw [List.lookup_eq_none_iff]
    intro p hp
    simpa using Ne.symm (hkeyne p.1 p.2 hp)
  refine ⟨?_, ?_, ?_, ?_, ?_⟩
  · rw [mem_runSpec_iff]
    rcases List.mem_cons.mp hv with hv0 | hvs
    · have hmem : Event.skipPerso v.title ∈ (recreateOne env (mkVRow pid 0 v₀)).1 := by
        rw [← hv0]
        simp [recreateOne, mkVRow, hperso]
      exact Or.inr (Or.inr (Or.inr (Or.inr (Or.inr (Or.inr (Or.inl hmem))))))
    · obtain ⟨r, hr, hrv, _⟩ := rows_of_mem pid vs 1 v hvs
      have hmem := skipPerso_mem_recreateEvs env _ r hr (by rw [hrv]; exact hperso)
      rw [hrv] at hmem
      exact Or.inr (Or.inr (Or.inr (Or.inr (Or.inl hmem))))
  · rw [createSeq_runSpec env pid v₀ vs hopt]
    intro hmem
    rcases List.mem_append.mp hmem with hmem | hmem
    · obtain ⟨u, hu, huid⟩ := List.mem_map.mp hmem
      obtain ⟨huvs, hup⟩ := List.mem_filter.mp hu
      have heq : u = v := hinj (List.mem_cons_of_mem _ huvs) hv huid
      rw [heq, hperso] at hup
      exact absurd hup (by simp)
    · cases hp0 : hasPerso v₀.title with
      | true => rw [hp0] at hmem; simp at hmem
      | false =>
        rw [hp0] at hmem
        simp only [if_false, Bool.false_eq_true, List.mem_singleton] at hmem
        have heq : v = v₀ := hinj hv (List.mem_cons_self _ _) hmem
        rw [heq] at hperso
        rw [hperso] at hp0
        exact absurd hp0 (by simp)
  · intro n hmem
    rcases (mem_runSpec_iff env pid v₀ vs _).mp hmem with h | h | h | h | h | h | h | h | h | h
    · simp at h
    · obtain ⟨p, _, hpe⟩ := mem_backupEvsSpec env pid _ _ h
      rcases mem_backupVariantEvsSpec env pid p.1 p.2 _ hpe with h1 | ⟨it, h1⟩ | ⟨r, h1⟩ <;>
        simp at h1
    · simp at h
    · obtain ⟨u, _, hu⟩ := List.mem_map.mp h
      simp at hu
    · obtain ⟨r, hr, hre⟩ := mem_recreateEvsSpec env _ _ h
      obtain ⟨hrid, hrp⟩ := created_of_recreateOne env r _ _ hre
      obtain ⟨hrv, hrid2⟩ := mem_rows_variant pid vs 1 r hr
      have heq : r.variant = v := hinj (List.mem_cons_of_mem _ hrv) hv
        (by rw [show Variant.id r.variant = r.variant.id from rfl, ← hrid2, ← hrid])
      rw [heq, hperso] at hrp
      exact absurd hrp (by simp)
    · simp at h
    · obtain ⟨hrid, hrp⟩ := created_of_recreateOne env _ _ _ h
      have heq : v₀ = v := hinj (List.mem_cons_self _ _) hv hrid.symm
      have hp1 : hasPerso v₀.title = false := hrp
      rw [heq, hperso] at hp1
      exact absurd hp1 (by simp)
    · obtain ⟨r, _, hre⟩ := mem_restoreLoop _ _ _ h
      rcases restoreStep_shape (mappingSpec env (backupRowsSpec pid (List.enumFrom 1 vs))
          ++ (recreateOne env (mkVRow pid 0 v₀)).2.getD []) r with ⟨m, _, hs⟩ | ⟨_, hs⟩ <;>
        rw [hs] at hre <;> simp at hre
    · obtain ⟨p, _, hpe⟩ := mem_cleanupLoop env _ _ _ h
      rcases mem_cleanupOne env _ p _ hpe with h1 | h1 | ⟨loc, h1⟩ <;> simp at h1
    · simp at h
  · intro r hr hrid
    rcases List.mem_append.mp hr with hr | hr
    · exact absurd hrid (hdb2 r hr v hv)
    · have hstep : restoreStep (mappingSpec env (backupRowsSpec pid (List.enumFrom 1 vs))
          ++ (recreateOne env (mkVRow pid 0 v₀)).2.getD []) r = Event.warnUnrestored v.id := by
        unfold restoreStep
        rw [hrid, hlookup]
      have hmem : Event.warnUnrestored v.id
          ∈ restoreLoop (mappingSpec env (backupRowsSpec pid (List.enumFrom 1 vs))
              ++ (recreateOne env (mkVRow pid 0 v₀)).2.getD [])
              (invRowsSpec env (List.enumFrom 0 (v₀ :: vs))) := by
        rw [← hstep]
        exact List.mem_map.mpr ⟨r, hr, rfl⟩
      rw [mem_runSpec_iff]
      exact Or.inr (Or.inr (Or.inr (Or.inr (Or.inr (Or.inr (Or.inr (Or.inl hmem)))))))
  · intro n loc q hmem
    rcases (mem_runSpec_iff env pid v₀ vs _).mp hmem with h | h | h | h | h | h | h | h | h | h
    · simp at h
    · obtain ⟨p, _, hpe⟩ := mem_backupEvsSpec env pid _ _ h
      rcases mem_backupVariantEvsSpec env pid p.1 p.2 _ hpe with h1 | ⟨it, h1⟩ | ⟨r, h1⟩ <;>
        simp at h1
    · simp at h
    · obtain ⟨u, _, hu⟩ := List.mem_map.mp h
      simp at hu
    · obtain ⟨r, _, hre⟩ := mem_recreateEvsSpec env _ _ h
      rcases mem_recreateOne env r _ hre with h1 | h1 | ⟨m, h1⟩ | h1 | h1 <;> simp at h1
    · simp at h
    · rcases mem_recreateOne env _ _ h with h1 | h1 | ⟨m, h1⟩ | h1 | h1 <;> simp at h1
    · obtain ⟨r, hr, hre⟩ := mem_restoreLoop _ _ _ h
      rcases restoreStep_shape (mappingSpec env (backupRowsSpec pid (List.enumFrom 1 vs))
          ++ (recreateOne env (mkVRow pid 0 v₀)).2.getD []) r with ⟨m, hm, hs⟩ | ⟨_, hs⟩
      · rw [hs] at hre
        injection hre.symm with e1 e2 e3
        obtain ⟨l1, l2, hsplit, _⟩ := List.lookup_eq_some_iff.mp hm
        have hmemk : (r.variant_id, m) ∈ mappingSpec env (backupRowsSpec pid (List.enumFrom 1 vs))
            ++ (recreateOne env (mkVRow pid 0 v₀)).2.getD [] := by
          rw [hsplit]
          exact List.mem_append_right _ (List.mem_cons_self _ _)
        refine ⟨r.variant_id, r.inventory_item_id, hkeyne _ _ hmemk, ?_⟩
        rw [← e2, ← e3]
        have heta : IRow.mk r.variant_id r.inventory_item_id r.location_id r.available = r := rfl
        rw [heta]
        exact List.mem_append_right _ hr
      · rw [hs] at hre
        simp at hre
    · obtain ⟨p, _, hpe⟩ := mem_cleanupLoop env _ _ _ h
      rcases mem_cleanupOne env _ p _ hpe with h1 | h1 | ⟨loc2, h1⟩ <;> simp at h1
    · simp at h

/-- Witness for C6 at the "blu perso" variant of `envW`. -/
theorem C6_perso_exclusion_witness :
    Event.skipPerso wP.title ∈ (processProduct envW ⟨[], []⟩ 1).2.1
    ∧ wP.id ∉ createSeq (processProduct envW ⟨[], []⟩ 1).2.1
    ∧ (∀ n, Event.created wP.id n ∉ (processProduct envW ⟨[], []⟩ 1).2.1)
    ∧ (∀ r ∈ (processProduct envW ⟨[], []⟩ 1).1.inventory_backup, r.variant_id = wP.id →
        Event.warnUnrestored wP.id ∈ (processProduct envW ⟨[], []⟩ 1).2.1)
    ∧ (∀ n loc q, Event.restoreSet n loc q ∈ (processProduct envW ⟨[], []⟩ 1).2.1 →
        ∃ u itemId, u ≠ wP.id
          ∧ IRow.mk u itemId loc q ∈ (processProduct envW ⟨[], []⟩ 1).1.inventory_backup) :=
  C6_perso_exclusion envW ⟨[], []⟩ 1 wA [wB, wP] rfl
    (by intro q hq; simp at hq) (by intro q hq; simp at hq) (by decide)
    (fun v _ itemId _ => envW_locs_nodup itemId) (by decide)
    wP (by decide) (by decide)

/-- C10: the inventory-level read is total with respect to transport
failures: when the underlying request for `itemId` raises,
`get_inventory_levels` returns the empty list (logging the error); in a
fatal-free run this yields a committed backup with zero inventory rows for
the owning variant, the run still issues the delete of that variant, and no
unrestorable-inventory warning ever names it. -/
theorem C10_inventory_fetch_total (env : Env) (db : DB) (pid : Nat)
    (v₀ : Variant) (vs : List Variant)
    (hfetch : env.fetchVariants pid = some (v₀ :: vs))
    (hdb1 : ∀ q ∈ db.variant_backup, q.product_id ≠ pid)
    (hdb2 : ∀ q ∈ db.inventory_backup, ∀ v ∈ v₀ :: vs, q.variant_id ≠ v.id)
    (hids : ((v₀ :: vs).map Variant.id).Nodup)
    (hlocs : ∀ v ∈ v₀ :: vs, ∀ itemId, optTruthy v.inventory_item_id = some itemId →
        (((env.invLevels itemId).getD []).map Prod.fst).Nodup)
    (hopt : ∀ v ∈ v₀ :: vs, hasPerso v.title = false → v.option1.isSome = true)
    (v : Variant) (hv : v ∈ v₀ :: vs) (itemId : Nat)
    (hitem : optTruthy v.inventory_item_id = some itemId)
    (herr : env.invLevels itemId = none) :
    get_inventory_levels env itemId = ([], [Event.invLevelsError itemId])
    ∧ (∀ r ∈ (processProduct env db pid).1.inventory_backup, r.variant_id ≠ v.id)
    ∧ Event.commit ∈ (processProduct env db pid).2.1
    ∧ Event.deleteIssued v.id (env.deleteOk v.id) ∈ (processProduct env db pid).2.1
    ∧ Event.warnUnrestored v.id ∉ (processProduct env db pid).2.1 := by
  rw [processProduct_ok env db pid v₀ vs hfetch hdb1 hdb2 hids hlocs hopt]
  have hinj := List.inj_on_of_nodup_map hids
  have hnone : ∀ r ∈ invRowsSpec env (List.enumFrom 0 (v₀ :: vs)), r.variant_id ≠ v.id := by
    intro r hr hrid
    obtain ⟨p, hp, hpid, itemId2, hot2, lv, hlv, _⟩ := mem_invRowsSpec env _ r hr
    have hpv : p.2 ∈ v₀ :: vs := by
      have : p.2 ∈ (List.enumFrom 0 (v₀ :: vs)).map Prod.snd := List.mem_map.mpr ⟨p, hp, rfl⟩
      rwa [List.enumFrom_map_snd] at this
    have heq : p.2 = v := hinj hpv hv (by rw [show Variant.id p.2 = p.2.id from rfl, ← hpid, hrid])
    rw [heq, hitem] at hot2
    injection hot2 with hit
    rw [← hit, herr] at hlv
    simp at hlv
  refine ⟨?_, ?_, ?_, ?_, ?_⟩
  · unfold get_inventory_levels
    rw [herr]
  · intro r hr
    rcases List.mem_append.mp hr with hr | hr
    · exact hdb2 r hr v hv
    · exact hnone r hr
  · rw [mem_runSpec_iff]
    exact Or.inr (Or.inr (Or.inl rfl))
  · rw [mem_runSpec_iff]
    rcases List.mem_cons.mp hv with hv0 | hvs
    · subst hv0
      exact Or.inr (Or.inr (Or.inr (Or.inr (Or.inr (Or.inl rfl)))))
    · exact Or.inr (Or.inr (Or.inr (Or.inl (List.mem_map.mpr ⟨v, hvs, rfl⟩))))
  · intro hmem
    rcases (mem_runSpec_iff env pid v₀ vs _).mp hmem with h | h | h | h | h | h | h | h | h | h
    · simp at h
    · obtain ⟨p, _, hpe⟩ := mem_backupEvsSpec env pid _ _ h
      rcases mem_backupVariantEvsSpec env pid p.1 p.2 _ hpe with h1 | ⟨it, h1⟩ | ⟨r, h1⟩ <;>
        simp at h1
    · simp at h
    · obtain ⟨u, _, hu⟩ := List.mem_map.mp h
      simp at hu
    · obtain ⟨r, _, hre⟩ := mem_recreateEvsSpec env _ _ h
      rcases mem_recreateOne env r _ hre with h1 | h1 | ⟨m, h1⟩ | h1 | h1 <;> simp at h1
    · simp at h
    · rcases mem_recreateOne env _ _ h with h1 | h1 | ⟨m, h1⟩ | h1 | h1 <;> simp at h1
    · obtain ⟨r, hr, hre⟩ := mem_restoreLoop _ _ _ h
      rcases restoreStep_shape (mappingSpec env (backupRowsSpec pid (List.enumFrom 1 vs))
          ++ (recreateOne env (mkVRow pid 0 v₀)).2.getD []) r with ⟨m, _, hs⟩ | ⟨_, hs⟩
      · rw [hs] at hre
        simp at hre
      · rw [hs] at hre
        injection hre.symm with e1
        exact hnone r hr e1
    · obtain ⟨p, _, hpe⟩ := mem_cleanupLoop env _ _ _ h
      rcases mem_cleanupOne env _ p _ hpe with h1 | h1 | ⟨loc2, h1⟩ <;> simp at h1
    · simp at h

/-- Witness for C10 at the "blu" variant of `envW`, whose inventory-item 320
fetch raises. -/
theorem C10_inventory_fetch_total_witness :
    get_inventory_levels envW 320 = ([], [Event.invLevelsError 320])
    ∧ (∀ r ∈ (processProduct envW ⟨[], []⟩ 1).1.inventory_backup, r.variant_id ≠ wB.id)
    ∧ Event.commit ∈ (processProduct envW ⟨[], []⟩ 1).2.1
    ∧ Event.deleteIssued wB.id (envW.deleteOk wB.id) ∈ (processProduct envW ⟨[], []⟩ 1).2.1
    ∧ Event.warnUnrestored wB.id ∉ (processProduct envW ⟨[], []⟩ 1).2.1 :=
  C10_inventory_fetch_total envW ⟨[], []⟩ 1 wA [wB, wP] rfl
    (by intro q hq; simp at hq) (by intro q hq; simp at hq) (by decide)
    (fun v _ itemId _ => envW_locs_nodup itemId) (by decide)
    wB (by decide) 320 (by decide) (by decide)

/-- Witness for C3 at the concrete three-variant product of `envW`. -/
theorem C3_backup_committed_before_deletes_witness :
    ∃ post,
      (processProduct envW ⟨[], []⟩ 1).2.1
        = (Event.fetched 1 ([wA, wB, wP]).length
            :: backupEvsSpec envW 1 (List.enumFrom 0 [wA, wB, wP]))
          ++ Event.commit :: post
      ∧ (∀ e ∈ Event.fetched 1 ([wA, wB, wP]).length
            :: backupEvsSpec envW 1 (List.enumFrom 0 [wA, wB, wP]), isDeleteEvent e = false)
      ∧ (∀ e ∈ post, isBackupWrite e = false ∧ e ≠ Event.commit)
      ∧ (backupEvsSpec envW 1 (List.enumFrom 0 [wA, wB, wP])).filterMap variantRowOf
          = backupRowsSpec 1 (List.enumFrom 0 [wA, wB, wP])
      ∧ (backupEvsSpec envW 1 (List.enumFrom 0 [wA, wB, wP])).filterMap invRowOf
          = invRowsSpec envW (List.enumFrom 0 [wA, wB, wP]) :=
  C3_backup_committed_before_deletes envW ⟨[], []⟩ 1 wA [wB, wP] rfl
    (by intro q hq; simp at hq) (by intro q hq; simp at hq) (by decide)
    (fun v _ itemId _ => envW_locs_nodup itemId) (by decide)

/-- C1: on the single-variant product of `envC1` (N = 1, nothing excluded,
all remote calls succeeding) the run issues the survivor delete while no
recreated variant exists yet, so the remote variant count reaches zero
between STEP 5 and STEP 6 and the "always at least one variant" invariant
evaluates to false on the trace. -/
theorem C1_zero_variant_window :
    alwaysLive 1 (mainRun envC1 [10]).2 = false
    ∧ Event.deleteIssued 11 true ∈ (mainRun envC1 [10]).2
    ∧ Event.created 11 501 ∈ (mainRun envC1 [10]).2
    ∧ (0 : Int) ∈ liveCounts 1 (mainRun envC1 [10]).2 := by
  refine ⟨by decide, by decide, by decide, by decide⟩

/-- C4 counterexample: on HTTP 429 with no Retry-After header the computed
wait is the parsed default of 2 time units at every attempt, not exponential
backoff capped at 32, which would give 1 at attempt 0; five such responses
exhaust the request with waits [2, 2, 2, 2, 2]. -/
theorem C4_retry_policy_counterexample :
    calculate_wait_time 429 none 0 ≠ min (2 ^ 0) 32
    ∧ request (fun _ => AttemptOutcome.response 429 none)
        = (RequestResult.exhausted, [2, 2, 2, 2, 2]) := by
  refine ⟨by decide, by decide⟩

theorem requestLoop_exhausted (outcomes : Nat → AttemptOutcome) :
    ∀ (fuel start : Nat),
      (∀ a, start ≤ a → a < start + fuel → retryAttempt (outcomes a) = true) →
      (requestLoop outcomes start fuel).1 = RequestResult.exhausted
      ∧ (requestLoop outcomes start fuel).2.length = fuel
  | 0, start, _ => ⟨rfl, rfl⟩
  | fuel + 1, start, h => by
    have hstart := h start (Nat.le_refl _) (by omega)
    have ih := requestLoop_exhausted outcomes fuel (start + 1)
      (fun a ha hb => h a (by omega) (by omega))
    cases hout : outcomes start with
    | connectionError =>
      simp only [requestLoop, hout]
      exact ⟨ih.1, by simp [ih.2]⟩
    | response st ra =>
      rw [hout] at hstart
      simp only [retryAttempt] at hstart
      simp only [requestLoop, hout, hstart]
      simp [ih.1, ih.2]

/-- C4 (amended): the retry policy implemented by ShopifyClient._request and
_calculate_wait_time: a 429 whose Retry-After header is absent waits the
parsed default of 2 time units (not exponential backoff); a parseable header
is honored; an unparseable header falls back to exponential backoff capped
at 32, which is also the wait for 502/503/504; a connection failure backs
off 2 ^ attempt uncapped; any other status of at least 400 propagates
immediately without retry; a status below 400 returns; five consecutive
retryable attempts exhaust the request and raise. -/
theorem C4_retry_policy_amended :
    (∀ a, calculate_wait_time 429 none a = 2)
    ∧ (∀ a s n, parseNat s = some n → calculate_wait_time 429 (some s) a = n)
    ∧ (∀ a s, parseNat s = none → calculate_wait_time 429 (some s) a = min (2 ^ a) 32)
    ∧ (∀ a st ra, st ≠ 429 → calculate_wait_time st ra a = min (2 ^ a) 32)
    ∧ (∀ outcomes st ra, outcomes 0 = AttemptOutcome.response st ra →
        RETRYABLE_STATUS_CODES.contains st = false → 400 ≤ st →
        request outcomes = (RequestResult.httpError st, []))
    ∧ (∀ outcomes st ra, outcomes 0 = AttemptOutcome.response st ra → st < 400 →
        request outcomes = (RequestResult.success st, []))
    ∧ (∀ outcomes, (∀ a, a < 5 → retryAttempt (outcomes a) = true) →
        (request outcomes).1 = RequestResult.exhausted
        ∧ (request outcomes).2.length = 5) := by
  refine ⟨fun a => rfl, ?_, ?_, ?_, ?_, ?_, ?_⟩
  · intro a s n h
    unfold calculate_wait_time
    rw [if_pos rfl]
    simp [h]
  · intro a s h
    unfold calculate_wait_time
    rw [if_pos rfl]
    simp [h]
  · intro a st ra h
    unfold calculate_wait_time
    rw [if_neg h]
  · intro outcomes st ra h hc hge
    simp only [request, requestLoop, h]
    rw [hc]
    simp [hge]
  · intro outcomes st ra h hlt
    have hc : RETRYABLE_STATUS_CODES.contains st = false := by
      have h1 : st ≠ 429 := by omega
      have h2 : st ≠ 502 := by omega
      have h3 : st ≠ 503 := by omega
      have h4 : st ≠ 504 := by omega
      simp [RETRYABLE_STATUS_CODES, List.contains_eq_any_beq, h1, h2, h3, h4]
    have hge : ¬(400 ≤ st) := by omega
    simp only [request, requestLoop, h]
    rw [hc]
    simp [hge]
  · intro outcomes h
    exact requestLoop_exhausted outcomes 5 0 (fun a _ hb => h a (by omega))

/-- Witness for C4 (amended) at concrete attempts and headers. -/
theorem C4_retry_policy_amended_witness :
    calculate_wait_time 429 none 3 = 2
    ∧ calculate_wait_time 429 (some "7") 3 = 7
    ∧ calculate_wait_time 429 (some "x") 6 = min (2 ^ 6) 32
    ∧ calculate_wait_time 503 none 6 = min (2 ^ 6) 32
    ∧ request (fun _ => AttemptOutcome.response 404 none) = (RequestResult.httpError 404, [])
    ∧ request (fun _ => AttemptOutcome.response 200 none) = (RequestResult.success 200, [])
    ∧ (request (fun _ => AttemptOutcome.connectionError)).1 = RequestResult.exhausted :=
  ⟨C4_retry_policy_amended.1 3,
   C4_retry_policy_amended.2.1 3 "7" 7 (by decide),
   C4_retry_policy_amended.2.2.1 6 "x" (by decide),
   C4_retry_policy_amended.2.2.2.1 6 503 none (by decide),
   C4_retry_policy_amended.2.2.2.2.1 (fun _ => AttemptOutcome.response 404 none) 404 none rfl
     (by decide) (by decide),
   C4_retry_policy_amended.2.2.2.2.2.1 (fun _ => AttemptOutcome.response 200 none) 200 none rfl
     (by decide),
   (C4_retry_policy_amended.2.2.2.2.2.2 (fun _ => AttemptOutcome.connectionError)
     (fun a _ => rfl)).1⟩

/-- C5 counterexample: in the batch [1, 2] of `envC5`, product 1's second
variant lacks option1, so building its recreation payload raises a KeyError
that escapes the per-product code; the batch terminates at the process-level
handler and product 2 is never fetched nor completed, refuting the claim
that any exception escaping a product's orchestration is caught by the
driver and processing continues with the remaining products. -/
theorem C5_driver_isolation_counterexample :
    Event.fatal "KeyError: option1" ∈ (mainRun envC5 [1, 2]).2
    ∧ Event.fetched 2 1 ∉ (mainRun envC5 [1, 2]).2
    ∧ Event.productDone 2 ∉ (mainRun envC5 [1, 2]).2
    ∧ Event.productDone 1 ∉ (mainRun envC5 [1, 2]).2 := by
  refine ⟨by decide, by decide, by decide, by decide⟩

/-- C5 (amended): the driver isolates only the fetch step: a fetch exception
is caught, logged and the batch continues with the remaining products, while
an exception escaping any later step of a product's orchestration (storage
integrity error during backup, missing option1 while building a recreation
payload) terminates the whole batch, leaving the remaining products
unprocessed. -/
theorem C5_driver_isolation_amended :
    (∀ (env : Env) (db : DB) (pid : Nat) (rest : List Nat),
      env.fetchVariants pid = none →
      runBatch env (pid :: rest) db
        = ((runBatch env rest db).1, Event.fetchError pid :: (runBatch env rest db).2))
    ∧ (∀ (env : Env) (db : DB) (pid : Nat) (rest : List Nat) (db1 : DB) (evs : List Event)
        (msg : String), processProduct env db pid = (db1, evs, some msg) →
        runBatch env (pid :: rest) db = (db1, evs ++ [Event.fatal msg])) := by
  constructor
  · intro env db pid rest h
    have hpp : processProduct env db pid = (db, [Event.fetchError pid], none) := by
      unfold processProduct
      rw [h]
    simp only [runBatch, hpp]
    rfl
  · intro env db pid rest db1 evs msg h
    simp only [runBatch, h]

/-- Witness for C5 (amended): a missing product id continues the batch, the
KeyError batch of `envC5` terminates it. -/
theorem C5_driver_isolation_amended_witness :
    runBatch envC5 [3] ⟨[], []⟩
      = ((runBatch envC5 [] ⟨[], []⟩).1, Event.fetchError 3 :: (runBatch envC5 [] ⟨[], []⟩).2)
    ∧ runBatch envC5 [1, 2] ⟨[], []⟩
      = ((processProduct envC5 ⟨[], []⟩ 1).1,
         (processProduct envC5 ⟨[], []⟩ 1).2.1 ++ [Event.fatal "KeyError: option1"]) :=
  ⟨C5_driver_isolation_amended.1 envC5 ⟨[], []⟩ 3 [] rfl,
   C5_driver_isolation_amended.2 envC5 ⟨[], []⟩ 1 [2] (processProduct envC5 ⟨[], []⟩ 1).1
     (processProduct envC5 ⟨[], []⟩ 1).2.1 "KeyError: option1" (by decide)⟩

/-- C7 counterexample: in the run of `envC7`, variant 51's create fails, so
its backed-up row (location 55, quantity 9) misses the identity map and the
warning of line 348 is logged; that message contains the variant id but
names neither the location id 55 nor the quantity 9, refuting the claim that
the warning names the unrestored variant ID, location ID and quantity. -/
theorem C7_unrestored_warning_counterexample :
    Event.warnUnrestored 51 ∈ (mainRun envC7 [1]).2
    ∧ IRow.mk 51 510 55 9 ∈ (mainRun envC7 [1]).1.inventory_backup
    ∧ containsSub (unrestoredWarning 51) "55" = false
    ∧ containsSub (unrestoredWarning 51) "9" = false
    ∧ containsSub (unrestoredWarning 51) "51" = true := by
  refine ⟨by decide, by decide, by decide, by decide, by decide⟩

/-- C7 (amended): RESTORE_INVENTORY processes every backed-up inventory row,
one action each, so an identity-map miss never aborts the restoration of
remaining rows; a miss logs the warning event carrying the unrestored
variant id, and the logged message interpolates exactly that id (location
and quantity are not part of the message). -/
theorem C7_unrestored_warning_amended :
    (∀ (mapping : List (Nat × Nat)) (rows : List IRow),
      restoreLoop mapping rows = rows.map (restoreStep mapping)
      ∧ (restoreLoop mapping rows).length = rows.length)
    ∧ (∀ (mapping : List (Nat × Nat)) (r : IRow), mapping.lookup r.variant_id = none →
        restoreStep mapping r = Event.warnUnrestored r.variant_id)
    ∧ (∀ n : Nat, ∃ pre post, unrestoredWarning n = pre ++ toString n ++ post) := by
  refine ⟨fun mapping rows => ⟨rfl, by simp [restoreLoop]⟩, ?_, ?_⟩
  · intro mapping r h
    unfold restoreStep
    rw [h]
  · intro n
    exact ⟨"  ⚠️ Impossibile ripristinare inventory per variant ",
      " (variante non ricreata o skippata)", rfl⟩

/-- Witness for C7 (amended) at the missed row of `envC7`. -/
theorem C7_unrestored_warning_amended_witness :
    restoreLoop [] [IRow.mk 51 510 55 9] = [IRow.mk 51 510 55 9].map (restoreStep [])
    ∧ restoreStep [] (IRow.mk 51 510 55 9) = Event.warnUnrestored 51
    ∧ (∃ pre post, unrestoredWarning 51 = pre ++ toString 51 ++ post) :=
  ⟨(C7_unrestored_warning_amended.1 [] [IRow.mk 51 510 55 9]).1,
   C7_unrestored_warning_amended.2.1 [] (IRow.mk 51 510 55 9) rfl,
   C7_unrestored_warning_amended.2.2 51⟩

/-- C8 counterexample: in the run of `envC8` the second variant has
inventory management disabled, yet after its recreation (new inventory item
900) the cleanup step fetches item 900's levels and removes its current
location 77, refuting the claim that such variants are skipped entirely. -/
theorem C8_cleanup_skip_counterexample :
    envC8.fetchVariants 1 = some [vC8a, vC8b]
    ∧ vC8b.inventory_management = false
    ∧ Event.created vC8b.id 900 ∈ (mainRun envC8 [1]).2
    ∧ Event.cleanupFetch 900 ∈ (mainRun envC8 [1]).2
    ∧ Event.removeIssued 900 77 ∈ (mainRun envC8 [1]).2 := by
  refine ⟨by decide, rfl, by decide, by decide, by decide⟩

theorem mem_cleanupLoop_of (env : Env) (origLocs : List (Nat × List Nat)) :
    ∀ (m : List (Nat × Nat)) (p : Nat × Nat) (e : Event), p ∈ m →
      e ∈ cleanupOne env origLocs p → e ∈ cleanupLoop env origLocs m
  | [], p, e, hp, _ => absurd hp (by simp)
  | q :: rest, p, e, hp, he => by
    rw [cleanupLoop, List.mem_append]
    rcases List.mem_cons.mp hp with hp | hp
    · subst hp
      exact Or.inl he
    · exact Or.inr (mem_cleanupLoop_of env origLocs rest p e hp he)

theorem remove_of_cleanupOne (env : Env) (origLocs : List (Nat × List Nat)) (p : Nat × Nat)
    (it loc : Nat) (he : Event.removeIssued it loc ∈ cleanupOne env origLocs p) :
    it = p.2 ∧ loc ∈ ((env.invLevels p.2).getD []).map Prod.fst
    ∧ ((origLocs.lookup p.1).getD []).contains loc = false := by
  unfold cleanupOne at he
  rcases List.mem_cons.mp he with he | he
  · simp at he
  rcases List.mem_append.mp he with he | he
  · unfold get_inventory_levels at he
    cases hlv : env.invLevels p.2 with
    | some levels => rw [hlv] at he; simp at he
    | none => rw [hlv] at he; simp at he
  · obtain ⟨l, hl, hle⟩ := List.mem_map.mp he
    obtain ⟨hlcur, hlorig⟩ := List.mem_filter.mp hl
    injection hle with e1 e2
    rw [get_inventory_levels_fst] at hlcur
    refine ⟨e1.symm, List.mem_map.mpr ⟨l, hlcur, e2⟩, ?_⟩
    rw [← e2]
    simpa using hlorig

/-- C8 (amended): CLEANUP_EXTRA_LOCATIONS iterates every entry of the
identity map, including recreated variants that had no inventory management
originally: for each mapped variant it fetches the current levels of the new
inventory item and removes exactly the current locations not contained in
that variant's original backed-up location set (which is empty for a variant
whose inventory was never backed up, so all its current locations are
removed). -/
theorem C8_cleanup_amended (env : Env) (origLocs : List (Nat × List Nat))
    (m : List (Nat × Nat)) (oldId newItem : Nat) (hm : (oldId, newItem) ∈ m) :
    Event.cleanupFetch newItem ∈ cleanupLoop env origLocs m
    ∧ cleanupOne env origLocs (oldId, newItem)
        = Event.cleanupFetch newItem :: (get_inventory_levels env newItem).2
          ++ ((get_inventory_levels env newItem).1.filter
              (fun l => !(((origLocs.lookup oldId).getD []).contains l.1))).map
            (fun l => Event.removeIssued newItem l.1)
    ∧ ((m.map Prod.snd).Nodup → ∀ loc,
        (Event.removeIssued newItem loc ∈ cleanupLoop env origLocs m ↔
          loc ∈ ((env.invLevels newItem).getD []).map Prod.fst
          ∧ ((origLocs.lookup oldId).getD []).contains loc = false)) := by
  refine ⟨?_, rfl, ?_⟩
  · exact mem_cleanupLoop_of env origLocs m (oldId, newItem) _ hm (by
      unfold cleanupOne
      exact List.mem_cons_self _ _)
  · intro hnd loc
    constructor
    · intro h
      obtain ⟨p, hp, hpe⟩ := mem_cleanupLoop env origLocs m _ h
      obtain ⟨hit, hcur, horig⟩ := remove_of_cleanupOne env origLocs p _ _ hpe
      have hinj := List.inj_on_of_nodup_map hnd
      have hpeq : p = (oldId, newItem) := hinj hp hm hit.symm
      subst hpeq
      exact ⟨hcur, horig⟩
    · intro hcur
      obtain ⟨l, hl, hl1⟩ := List.mem_map.mp hcur.1
      have hle : Event.removeIssued newItem loc ∈ cleanupOne env origLocs (oldId, newItem) := by
        unfold cleanupOne
        refine List.mem_cons_of_mem _ (List.mem_append_right _ ?_)
        refine List.mem_map.mpr ⟨l, ?_, by rw [hl1]⟩
        refine List.mem_filter.mpr ⟨?_, ?_⟩
        · rw [get_inventory_levels_fst]
          exact hl
        · rw [hl1, hcur.2]
          rfl
      exact mem_cleanupLoop_of env origLocs m (oldId, newItem) _ hm hle

/-- Witness for C8 (amended) at the identity map of the `envC8` run. -/
theorem C8_cleanup_amended_witness :
    Event.cleanupFetch 900 ∈ cleanupLoop envC8 [(21, [70])] [(22, 900), (21, 901)]
    ∧ (Event.removeIssued 900 77 ∈ cleanupLoop envC8 [(21, [70])] [(22, 900), (21, 901)] ↔
        77 ∈ ((envC8.invLevels 900).getD []).map Prod.fst
        ∧ (([(21, [70])].lookup 22).getD []).contains 77 = false) :=
  ⟨(C8_cleanup_amended envC8 [(21, [70])] [(22, 900), (21, 901)] 22 900 (by decide)).1,
   (C8_cleanup_amended envC8 [(21, [70])] [(22, 900), (21, 901)] 22 900 (by decide)).2.2
     (by decide) 77⟩

/-- C9 counterexample: in the batch [5, 5] of `envC9` (deletes and creates
failing, so the remote state is unchanged and the second fetch returns the
same variants), the second occurrence of the product does not clear the
first pass's backup rows: its first variant-row insert hits the
(product_id, id) primary key and the batch dies with a duplicate-key error;
DONE is reached only once, refuting idempotent per-product backup scoping.
The backup rows of a completed single run also persist (no per-product
clearing ever occurs). -/
theorem C9_backup_scope_counterexample :
    (mainRun envC9 [5, 5]).2.count (Event.productDone 5) = 1
    ∧ Event.fatal "IntegrityError: duplicate key" ∈ (mainRun envC9 [5, 5]).2
    ∧ (mainRun envC9 [5]).1.variant_backup.length = 2 := by
  refine ⟨by decide, by decide, by decide⟩

theorem insertLevels_mono (variantId itemId : Nat) : ∀ (levels : List (Nat × Int)) (db : DB),
    ∃ ni, (insertLevels variantId itemId levels db).1.variant_backup = db.variant_backup
    ∧ (insertLevels variantId itemId levels db).1.inventory_backup = db.inventory_backup ++ ni
  | [], db => ⟨[], rfl, by simp [insertLevels]⟩
  | (loc, avail) :: rest, db => by
    cases hins : insertInventoryRow db ⟨variantId, itemId, loc, avail⟩ with
    | none =>
      refine ⟨[], ?_, ?_⟩ <;> simp [insertLevels, hins]
    | some db1 =>
      have hstate : db1.variant_backup = db.variant_backup
          ∧ db1.inventory_backup = db.inventory_backup ++ [⟨variantId, itemId, loc, avail⟩] := by
        unfold insertInventoryRow at hins
        split at hins
        · exact absurd hins (by simp)
        · injection hins with h
          rw [← h]
          exact ⟨rfl, rfl⟩
      obtain ⟨ni, hv, hi⟩ := insertLevels_mono variantId itemId rest db1
      refine ⟨[⟨variantId, itemId, loc, avail⟩] ++ ni, ?_, ?_⟩ <;>
        simp only [insertLevels, hins]
      · rw [hv, hstate.1]
      · rw [hi, hstate.2, List.append_assoc]

theorem backupLoop_mono (env : Env) (pid : Nat) : ∀ (l : List (Nat × Variant)) (db : DB),
    ∃ nv ni, (backupLoop env pid l db).1.variant_backup = db.variant_backup ++ nv
    ∧ (backupLoop env pid l db).1.inventory_backup = db.inventory_backup ++ ni
  | [], db => ⟨[], [], by simp [backupLoop], by simp [backupLoop]⟩
  | (idx, v) :: rest, db => by
    cases hins : insertVariantRow db (mkVRow pid idx v) with
    | none =>
      refine ⟨[], [], ?_, ?_⟩ <;> simp [backupLoop, hins]
    | some db1 =>
      have hstate : db1.variant_backup = db.variant_backup ++ [mkVRow pid idx v]
          ∧ db1.inventory_backup = db.inventory_backup := by
        unfold insertVariantRow at hins
        split at hins
        · exact absurd hins (by simp)
        · injection hins with h
          rw [← h]
          exact ⟨rfl, rfl⟩
      cases hvm : v.inventory_management with
      | false =>
        obtain ⟨nv, ni, hv, hi⟩ := backupLoop_mono env pid rest db1
        refine ⟨[mkVRow pid idx v] ++ nv, ni, ?_, ?_⟩ <;>
          simp only [backupLoop, hins, hvm]
        · rw [hv, hstate.1, List.append_assoc]
        · rw [hi, hstate.2]
      | true =>
        cases hot : optTruthy v.inventory_item_id with
        | none =>
          obtain ⟨nv, ni, hv, hi⟩ := backupLoop_mono env pid rest db1
          refine ⟨[mkVRow pid idx v] ++ nv, ni, ?_, ?_⟩ <;>
            simp only [backupLoop, hins, hvm, hot]
          · rw [hv, hstate.1, List.append_assoc]
          · rw [hi, hstate.2]
        | some itemId =>
          obtain ⟨ni1, hlv, hli⟩ := insertLevels_mono v.id itemId
            (get_inventory_levels env itemId).1 db1
          cases hlocs : (insertLevels v.id itemId (get_inventory_levels env itemId).1 db1).2.2 with
          | none =>
            refine ⟨[mkVRow pid idx v], ni1, ?_, ?_⟩ <;>
              simp only [backupLoop, hins, hvm, hot, hlocs]
            · rw [hlv, hstate.1]
            · rw [hli, hstate.2]
          | some locs =>
            obtain ⟨nv, ni, hv, hi⟩ := backupLoop_mono env pid rest
              (insertLevels v.id itemId (get_inventory_levels env itemId).1 db1).1
            refine ⟨[mkVRow pid idx v] ++ nv, ni1 ++ ni, ?_, ?_⟩ <;>
              simp only [backupLoop, hins, hvm, hot, hlocs]
            · rw [hv, hlv, hstate.1, List.append_assoc]
            · rw [hi, hli, hstate.2, List.append_assoc]

theorem processProduct_mono (env : Env) (db : DB) (pid : Nat) :
    ∃ nv ni, (processProduct env db pid).1.variant_backup = db.variant_backup ++ nv
    ∧ (processProduct env db pid).1.inventory_backup = db.inventory_backup ++ ni := by
  rcases hfetch : env.fetchVariants pid with _ | variants
  · refine ⟨[], [], ?_, ?_⟩ <;> simp [processProduct, hfetch]
  · rcases variants with _ | ⟨v, rest⟩
    · refine ⟨[], [], ?_, ?_⟩ <;> simp [processProduct, hfetch]
    · obtain ⟨nv, ni, hv, hi⟩ := backupLoop_mono env pid (List.enumFrom 0 (v :: rest)) db
      refine ⟨nv, ni, ?_, ?_⟩ <;>
        simp only [processProduct, hfetch] <;>
        repeat' split
      all_goals first | exact hv | exact hi

/-- C9 (amended): the backup store is cleared once at process start
(`ensure_temp_tables` empties both tables), not per product: a product's
processing only ever appends to the backup tables and never clears the prior
rows of its own or any other product, so prior-scope clearing before a
repeated product does not happen. -/
theorem C9_backup_scope_amended :
    (∀ db : DB, ensure_temp_tables db = ⟨[], []⟩)
    ∧ (∀ (env : Env) (db : DB) (pid : Nat), ∃ nv ni,
        (processProduct env db pid).1.variant_backup = db.variant_backup ++ nv
        ∧ (processProduct env db pid).1.inventory_backup = db.inventory_backup ++ ni) :=
  ⟨fun _ => rfl, fun env db pid => processProduct_mono env db pid⟩

/-- Witness for C9 (amended): the second pass of the duplicated product of
`envC9` starts from the first pass's rows and only appends. -/
theorem C9_backup_scope_amended_witness :
    ensure_temp_tables (mainRun envC9 [5]).1 = ⟨[], []⟩
    ∧ (∃ nv ni,
        (processProduct envC9 (mainRun envC9 [5]).1 5).1.variant_backup
          = (mainRun envC9 [5]).1.variant_backup ++ nv
        ∧ (processProduct envC9 (mainRun envC9 [5]).1 5).1.inventory_backup
          = (mainRun envC9 [5]).1.inventory_backup ++ ni) :=
  ⟨C9_backup_scope_amended.1 (mainRun envC9 [5]).1,
   C9_backup_scope_amended.2 envC9 (mainRun envC9 [5]).1 5⟩
